import Mathlib

/-!
# Verification of the minerva search/question pipeline

Shallow embedding of `src/python-service/services/search_service.py` and
`src/python-service/services/question_generator.py`.  Strings are modelled
as `List Char`; Python dictionaries as ordered association lists over
`List Char` keys and JSON-like values (`JVal`); Python truthiness is made
explicit (`truthy`).  Regular expressions used in the source are embedded
as the deterministic scans they denote on the concrete patterns involved.
-/

namespace Minerva

/-! ## Basic string utilities (Python `str` operations on `List Char`) -/

/-- ASCII whitespace, as matched by Python `str.strip` and `\s`. -/
def isWsC (c : Char) : Bool :=
  c = ' ' || c = '\t' || c = '\n' || c = '\r' || c = '\x0b' || c = '\x0c'

/-- Python `str.lower` (ASCII view). -/
def lowerL (l : List Char) : List Char := l.map Char.toLower

/-- Strip characters satisfying `p` from both ends (Python `str.strip`). -/
def stripP (p : Char → Bool) (l : List Char) : List Char :=
  ((l.dropWhile p).reverse.dropWhile p).reverse

/-- Python `str.strip()` (whitespace). -/
def pyStrip (l : List Char) : List Char := stripP isWsC l

/-- Python `str.strip('*')`. -/
def stripStars (l : List Char) : List Char := stripP (· = '*') l

/-- Python `needle in hay` substring containment. -/
def substrOf (n : List Char) : List Char → Bool
  | [] => n.isEmpty
  | c :: rest => n.isPrefixOf (c :: rest) || substrOf n rest

/-- Python `str.split(sep, 1)` component split at the first occurrence of a
character: returns `(before, some after)` when the character occurs. -/
def splitFirst (sep : Char) : List Char → List Char × Option (List Char)
  | [] => ([], none)
  | c :: rest =>
    if c = sep then ([], some rest)
    else
      match splitFirst sep rest with
      | (pre, r) => (c :: pre, r)

/-- Text following the first `:` of a line (Python `line.split(':', 1)[1]`),
meaningful when the line contains a colon; empty otherwise. -/
def afterColon (l : List Char) : List Char :=
  match splitFirst ':' l with
  | (_, some r) => r
  | (_, none) => []

/-- Python `str.split('**')` (non-overlapping, left to right). -/
def splitDblStar : List Char → List (List Char)
  | [] => [[]]
  | '*' :: '*' :: rest => [] :: splitDblStar rest
  | c :: rest =>
    match splitDblStar rest with
    | [] => [[c]]
    | h :: t => (c :: h) :: t

/-- Index of the last occurrence of a character (Python `str.rfind`),
`none` when absent. -/
def rfindIdx (l : List Char) (c : Char) : Option Nat :=
  match l with
  | [] => none
  | d :: rest =>
    match rfindIdx rest c with
    | some i => some (i + 1)
    | none => if d = c then some 0 else none

theorem length_dropWhile_le (p : Char → Bool) (l : List Char) :
    (l.dropWhile p).length ≤ l.length := by
  induction l with
  | nil => simp [List.dropWhile]
  | cons c rest ih =>
    by_cases h : p c
    · simp only [List.dropWhile, h]
      exact Nat.le_succ_of_le ih
    · simp [List.dropWhile, h]

/-! ## JSON-like values and Python dictionaries -/

/-- A JSON-like value; Python dictionaries in the pipeline are `obj`
association lists with string keys. -/
inductive JVal where
  | null
  | bool (b : Bool)
  | num (q : Rat)
  | str (s : List Char)
  | arr (elems : List JVal)
  | obj (fields : List (List Char × JVal))

/-- An ordered Python dictionary with string keys. -/
abbrev Dict := List (List Char × JVal)

/-- Python `d.get(k)`: first binding of the key. -/
def dget (d : Dict) (k : List Char) : Option JVal :=
  match d with
  | [] => none
  | (k0, v) :: rest => if k0 = k then some v else dget rest k

/-- Python `k in d`: key presence. -/
def hasKey (d : Dict) (k : List Char) : Bool :=
  match d with
  | [] => false
  | (k0, _) :: rest => k0 = k || hasKey rest k

/-- Python `d[k] = v`: replace the binding in place, else append. -/
def dset (d : Dict) (k : List Char) (v : JVal) : Dict :=
  match d with
  | [] => [(k, v)]
  | (k0, v0) :: rest =>
    if k0 = k then (k0, v) :: rest else (k0, v0) :: dset rest k v

/-- Python truthiness of a value. -/
def truthy : JVal → Bool
  | .null => false
  | .bool b => b
  | .num q => decide (q ≠ 0)
  | .str s => !s.isEmpty
  | .arr xs => !xs.isEmpty
  | .obj fs => !fs.isEmpty

/-- Python truthiness of `d.get(k)` (`None` is falsy). -/
def truthyO : Option JVal → Bool
  | none => false
  | some v => truthy v

/-- The string content of an optional value, with `None`/non-string giving
the empty string (used where the source writes `(x or "")`). -/
def asTextD : Option JVal → List Char
  | some (.str s) => s
  | _ => []

/-- Python `a or b` on two optional values: the first if truthy, else the
second. -/
def pyOrJ (a b : Option JVal) : Option JVal :=
  if truthyO a then a else b

theorem dget_dset_self (d : Dict) (k : List Char) (v : JVal) :
    dget (dset d k v) k = some v := by
  induction d with
  | nil => simp [dget, dset]
  | cons kv rest ih =>
    by_cases h : kv.1 = k
    · simp [dget, dset, h]
    · simp [dget, dset, h, ih]

theorem dget_dset_ne (d : Dict) (k k' : List Char) (v : JVal) (h : k ≠ k') :
    dget (dset d k v) k' = dget d k' := by
  induction d with
  | nil => simp [dget, dset, h]
  | cons kv rest ih =>
    by_cases h0 : kv.1 = k
    · have h1 : ¬ kv.1 = k' := by rw [h0]; exact h
      simp [dget, dset, h0, h1, h]
    · by_cases h1 : kv.1 = k'
      · simp [dget, dset, h0, h1, h, Ne.symm h]
      · simp [dget, dset, h0, h1, ih]

/-! ## A small JSON reader (model of `json.loads` on the inputs the
pipeline slices out of model replies) -/

/-- JSON whitespace accepted by `json.loads` between tokens. -/
def isJWs (c : Char) : Bool := c = ' ' || c = '\t' || c = '\n' || c = '\r'

def skipJWs (l : List Char) : List Char := l.dropWhile isJWs

/-- Hex digit value. -/
def hexVal (c : Char) : Option Nat :=
  if '0' ≤ c ∧ c ≤ '9' then some (c.toNat - '0'.toNat)
  else if 'a' ≤ c ∧ c ≤ 'f' then some (c.toNat - 'a'.toNat + 10)
  else if 'A' ≤ c ∧ c ≤ 'F' then some (c.toNat - 'A'.toNat + 10)
  else none

/-- Body of a JSON string after the opening quote, with escapes. -/
def jStr : List Char → List Char → Option (List Char × List Char)
  | [], _ => none
  | '"' :: rest, acc => some (acc.reverse, rest)
  | '\\' :: e :: rest, acc =>
    match e with
    | '"' => jStr rest ('"' :: acc)
    | '\\' => jStr rest ('\\' :: acc)
    | '/' => jStr rest ('/' :: acc)
    | 'b' => jStr rest ('\x08' :: acc)
    | 'f' => jStr rest ('\x0c' :: acc)
    | 'n' => jStr rest ('\n' :: acc)
    | 'r' => jStr rest ('\r' :: acc)
    | 't' => jStr rest ('\t' :: acc)
    | 'u' =>
      match rest with
      | a :: b :: c :: d :: r2 =>
        match hexVal a, hexVal b, hexVal c, hexVal d with
        | some x, some y, some z, some w =>
          jStr r2 (Char.ofNat (((x * 16 + y) * 16 + z) * 16 + w) :: acc)
        | _, _, _, _ => none
      | _ => none
    | _ => none
  | '\\' :: [], _ => none
  | c :: rest, acc => jStr rest (c :: acc)

/-- Natural number denoted by a digit run. -/
def digitsVal (l : List Char) : Nat :=
  l.foldl (fun n c => n * 10 + (c.toNat - '0'.toNat)) 0

/-- A JSON number (sign, integer part, optional fraction and exponent),
read into a rational. -/
def jNum (l : List Char) : Option (JVal × List Char) :=
  let (neg, l1) := match l with
    | '-' :: r => (true, r)
    | _ => (false, l)
  let ds := l1.takeWhile Char.isDigit
  if ds = [] then none
  else if ds.length > 1 ∧ ds.headD '0' = '0' then none
  else
    let l2 := l1.drop ds.length
    let (fr, l3) :=
      match l2 with
      | '.' :: r =>
        let fs := r.takeWhile Char.isDigit
        (some fs, r.drop fs.length)
      | _ => (none, l2)
    match fr with
    | some [] => none
    | _ =>
      let (ex, l4) :=
        match l3 with
        | 'e' :: r => (some r, r)
        | 'E' :: r => (some r, r)
        | _ => (none, l3)
      let finish := fun (base : Rat) (rest : List Char) =>
        let v := if neg then -base else base
        some ((JVal.num v, rest) : JVal × List Char)
      let frPart : Rat :=
        match fr with
        | some fs => (digitsVal fs : Rat) / ((10 : Rat) ^ fs.length)
        | none => 0
      let base : Rat := (digitsVal ds : Rat) + frPart
      match ex with
      | none => finish base l4
      | some r =>
        let (eneg, r1) := match r with
          | '-' :: rr => (true, rr)
          | '+' :: rr => (false, rr)
          | _ => (false, r)
        let es := r1.takeWhile Char.isDigit
        if es = [] then none
        else
          let e := digitsVal es
          let scaled := if eneg then base / ((10 : Rat) ^ e) else base * ((10 : Rat) ^ e)
          finish scaled (r1.drop es.length)

/-- The mode of the JSON reader: a value, the inside of an object or
array just after its opening bracket, or the member/element loop with its
accumulator. -/
inductive JMode where
  | value
  | objBody
  | objMembers (acc : Dict)
  | arrBody
  | arrElems (acc : List JVal)

/-- One fueled step of the JSON reader (structurally recursive on the
fuel, so that concrete parses reduce definitionally). -/
def jStep : Nat → JMode → List Char → Option (JVal × List Char)
  | 0, _, _ => none
  | fuel + 1, .value, l0 =>
    match skipJWs l0 with
    | '{' :: rest => jStep fuel .objBody (skipJWs rest)
    | '[' :: rest => jStep fuel .arrBody (skipJWs rest)
    | '"' :: rest =>
      match jStr rest [] with
      | some (str2, r) => some (.str str2, r)
      | none => none
    | 't' :: 'r' :: 'u' :: 'e' :: rest => some (.bool true, rest)
    | 'f' :: 'a' :: 'l' :: 's' :: 'e' :: rest => some (.bool false, rest)
    | 'n' :: 'u' :: 'l' :: 'l' :: rest => some (.null, rest)
    | l => jNum l
  | fuel + 1, .objBody, l =>
    match l with
    | '}' :: rest => some (.obj [], rest)
    | _ => jStep fuel (.objMembers []) l
  | fuel + 1, .objMembers acc, l =>
    match skipJWs l with
    | '"' :: rest =>
      match jStr rest [] with
      | some (k, r1) =>
        match skipJWs r1 with
        | ':' :: r2 =>
          match jStep fuel .value r2 with
          | some (v, r3) =>
            match skipJWs r3 with
            | ',' :: r4 => jStep fuel (.objMembers (dset acc k v)) r4
            | '}' :: r4 => some (.obj (dset acc k v), r4)
            | _ => none
          | none => none
        | _ => none
      | none => none
    | _ => none
  | fuel + 1, .arrBody, l =>
    match l with
    | ']' :: rest => some (.arr [], rest)
    | _ => jStep fuel (.arrElems []) l
  | fuel + 1, .arrElems acc, l =>
    match jStep fuel .value l with
    | some (v, r1) =>
      match skipJWs r1 with
      | ',' :: r2 => jStep fuel (.arrElems (acc ++ [v])) r2
      | ']' :: r2 => some (.arr (acc ++ [v]), r2)
      | _ => none
    | none => none

/-- `json.loads`: a single JSON document with nothing but whitespace after
it. -/
def jsonLoads (l : List Char) : Option JVal :=
  match jStep (3 * l.length + 8) .value l with
  | some (v, rest) => if skipJWs rest = [] then some v else none
  | none => none

/-! ## Regex scans used by `parse_response` -/

/-- A character stops a URL match (`[^\s\)]` complement). -/
def urlStop (c : Char) : Bool := isWsC c || c = ')'

/-- `re.findall(r'https?://[^\s\)]+', content)`: all non-overlapping URL
matches, left to right. -/
def findUrlsF : Nat → List Char → List (List Char)
  | _, [] => []
  | 0, _ => []
  | fuel + 1, c :: rest =>
    if ("https://".toList).isPrefixOf (c :: rest) then
      let after := rest.drop 7
      let run := after.takeWhile (fun ch => !urlStop ch)
      if run = [] then findUrlsF fuel rest
      else ("https://".toList ++ run) :: findUrlsF fuel (after.drop run.length)
    else if ("http://".toList).isPrefixOf (c :: rest) then
      let after := rest.drop 6
      let run := after.takeWhile (fun ch => !urlStop ch)
      if run = [] then findUrlsF fuel rest
      else ("http://".toList ++ run) :: findUrlsF fuel (after.drop run.length)
    else findUrlsF fuel rest

/-- `re.findall` wrapper at sufficient fuel (each step consumes at least
one character). -/
def findUrls (l : List Char) : List (List Char) := findUrlsF l.length l

/-- `re.search(r'\*\*([^*]+)\*\*', text)`: first bold-delimited span. -/
def boldSearch : List Char → Option (List Char)
  | [] => none
  | c :: rest =>
    if c = '*' then
      match rest with
      | '*' :: r2 =>
        let run := r2.takeWhile (· ≠ '*')
        if run ≠ [] ∧ (r2.drop run.length).take 2 = ['*', '*'] then some run
        else boldSearch rest
      | _ => boldSearch rest
    else boldSearch rest

/-- `re.search(r'\]\((https?://[^\)]+)\)', url)`: the URL of a markdown
link, when present. -/
def mdLinkUrl : List Char → Option (List Char)
  | [] => none
  | c :: rest =>
    let attempt :=
      if c = ']' then
        match rest with
        | '(' :: r2 =>
          let scheme :=
            if ("https://".toList).isPrefixOf r2 then some ("https://".toList)
            else if ("http://".toList).isPrefixOf r2 then some ("http://".toList)
            else none
          match scheme with
          | some sch =>
            let r3 := r2.drop sch.length
            let run := r3.takeWhile (· ≠ ')')
            if run ≠ [] ∧ (r3.drop run.length).take 1 = [')'] then
              some (sch ++ run)
            else none
          | none => none
        | _ => none
      else none
    match attempt with
    | some u => some u
    | none => mdLinkUrl rest

/-- One attempt of the pattern `\n\s*(\d+)\.\s+` at the head of the text:
on success, the captured digits and the text after the match. -/
def numSplitMatch (l : List Char) : Option (List Char × List Char) :=
  match l with
  | '\n' :: r =>
    let r1 := r.dropWhile isWsC
    let ds := r1.takeWhile Char.isDigit
    if ds = [] then none
    else
      match r1.drop ds.length with
      | '.' :: r3 =>
        let ws := r3.takeWhile isWsC
        if ws = [] then none else some (ds, r3.drop ws.length)
      | _ => none
  | _ => none

theorem numSplitMatch_shrinks (l ds after : List Char)
    (h : numSplitMatch l = some (ds, after)) : after.length < l.length := by
  match l with
  | [] => simp [numSplitMatch] at h
  | c :: r =>
    by_cases hc : c = '\n'
    · subst hc
      simp only [numSplitMatch] at h
      by_cases hds : (r.dropWhile isWsC).takeWhile Char.isDigit = []
      · simp [hds] at h
      · simp only [hds, if_false] at h
        match hdrop : (r.dropWhile isWsC).drop ((r.dropWhile isWsC).takeWhile Char.isDigit).length with
        | [] => rw [hdrop] at h; simp at h
        | c2 :: r3 =>
          rw [hdrop] at h
          by_cases hc2 : c2 = '.'
          · subst hc2
            simp only at h
            by_cases hws : r3.takeWhile isWsC = []
            · simp [hws] at h
            · simp only [hws, if_false, Option.some.injEq, Prod.mk.injEq] at h
              have h2 : after.length ≤ r3.length := by
                rw [← h.2]
                have := List.length_drop (r3.takeWhile isWsC).length r3
                omega
              have h3 : r3.length < (r.dropWhile isWsC).length := by
                have h4 := congrArg List.length hdrop
                rw [List.length_drop] at h4
                simp only [List.length_cons] at h4
                have h5 : ((r.dropWhile isWsC).takeWhile Char.isDigit).length > 0 := by
                  cases hnil : (r.dropWhile isWsC).takeWhile Char.isDigit with
                  | nil => exact absurd hnil hds
                  | cons a as => simp [hnil]
                omega
              have h6 : (r.dropWhile isWsC).length ≤ r.length := length_dropWhile_le _ _
              simp only [List.length_cons]
              omega
          · simp [hc2] at h
    · simp only [numSplitMatch] at h
      match c, hc with
      | c, hc =>
        cases c <;> simp_all [numSplitMatch]

/-- `re.split(r'\n\s*(\d+)\.\s+', content)`: the text before the first
match and, for each match, the captured digits with the following
segment. -/
def numSplitGoF : Nat → List Char → List Char → List Char × List (List Char × List Char)
  | _, [], acc => (acc.reverse, [])
  | 0, l, acc => (acc.reverse ++ l, [])
  | fuel + 1, c :: rest, acc =>
    match numSplitMatch (c :: rest) with
    | some (ds, after) =>
      let r := numSplitGoF fuel after []
      (acc.reverse, (ds, r.1) :: r.2)
    | none => numSplitGoF fuel rest (c :: acc)

/-- `re.split` wrapper at sufficient fuel. -/
def numSplitGo (l acc : List Char) : List Char × List (List Char × List Char) :=
  numSplitGoF l.length l acc

/-! ## The structured-text line scanner of `parse_response` -/

/-- The "current section" tag of the scanner. -/
inductive Sect where
  | title
  | url
  | imageUrl
  | description
  | whyMatches
  | additionalInfo
deriving DecidableEq

/-- Scanner state: accumulated results, the current record, the current
section. -/
structure ScanSt where
  results : List Dict
  current : Dict
  sect : Option Sect

/-- Flush the current record into the results when it is a nonempty
dictionary with a truthy title. -/
def flushCur (st : ScanSt) : List Dict :=
  if !st.current.isEmpty && truthyO (dget st.current ("title".toList)) then
    st.results ++ [st.current]
  else st.results

/-- Set a field, or extend it with a space-joined continuation, as the
scanner does for description/why-matches/additional-info. -/
def setOrExtend (d : Dict) (k addition : List Char) : Dict :=
  if hasKey d k then
    match dget d k with
    | some (.str s) => dset d k (.str (s ++ ' ' :: addition))
    | _ => dset d k (.str addition)
  else dset d k (.str addition)

/-- Image-classifying substrings for bare URLs. -/
def imageMarkers : List (List Char) :=
  [".jpg".toList, ".jpeg".toList, ".png".toList, ".gif".toList,
   ".webp".toList, "image".toList, "img".toList]

/-- Numbered-list marker: flush the current record and start a new one,
titling it from the text after a colon or from the bold-delimited text. -/
def stepNumbered (st : ScanSt) (line : List Char) : ScanSt :=
  { results := flushCur st,
    current :=
      if line.any (· = ':') then
        dset [] ("title".toList) (.str (pyStrip (stripStars (pyStrip (afterColon line)))))
      else if substrOf ("**".toList) line then
        match splitDblStar line with
        | _ :: second :: _ => dset [] ("title".toList) (.str (pyStrip second))
        | _ => []
      else [],
    sect := none }

/-- Bold-wrapped line: flush and start a record titled by the bold text. -/
def stepBold (st : ScanSt) (line : List Char) : ScanSt :=
  { results := flushCur st,
    current := dset [] ("title".toList) (.str (pyStrip (stripStars line))),
    sect := none }

/-- A `Product:`/`Name:`/`Title:` label line. -/
def stepTitleLabel (st : ScanSt) (line : List Char) : ScanSt :=
  let value := pyStrip (stripStars (pyStrip (afterColon line)))
  if value ≠ [] then
    { st with current := dset st.current ("title".toList) (.str value),
              sect := some .title }
  else st

/-- A bare URL line, classified as image or primary URL. -/
def stepBareUrl (st : ScanSt) (line low : List Char) : ScanSt :=
  if imageMarkers.any (fun m => substrOf m low) then
    { st with current := dset st.current ("image_url".toList) (.str line),
              sect := some .url }
  else
    { st with current := dset st.current ("url".toList) (.str line),
              sect := some .url }

/-- A `URL:` label line: direct http URL or markdown link. -/
def stepUrlLabel (st : ScanSt) (line : List Char) : ScanSt :=
  let url := pyStrip (afterColon line)
  let cur :=
    if ("http".toList).isPrefixOf url then
      dset st.current ("url".toList) (.str url)
    else if ("[".toList).isPrefixOf url ∧ substrOf ("](".toList) url then
      match mdLinkUrl url with
      | some u => dset st.current ("url".toList) (.str u)
      | none => st.current
    else st.current
  { st with current := cur, sect := some .url }

/-- An `Image URL:`/`Image:` label line. -/
def stepImageLabel (st : ScanSt) (line : List Char) : ScanSt :=
  let image_url := pyStrip (afterColon line)
  let cur :=
    if ("http".toList).isPrefixOf image_url then
      dset st.current ("image_url".toList) (.str image_url)
    else st.current
  { st with current := cur, sect := some .imageUrl }

/-- A `Description:` label line. -/
def stepDescLabel (st : ScanSt) (line : List Char) : ScanSt :=
  { st with current := dset st.current ("description".toList) (.str (pyStrip (afterColon line))),
            sect := some .description }

/-- A why/match line. -/
def stepWhy (st : ScanSt) (line : List Char) : ScanSt :=
  let why := if line.any (· = ':') then pyStrip (afterColon line) else []
  let cur := if why ≠ [] then dset st.current ("why_matches".toList) (.str why)
             else st.current
  { st with current := cur, sect := some .whyMatches }

/-- An additional/information line. -/
def stepAdditional (st : ScanSt) (line : List Char) : ScanSt :=
  let info := if line.any (· = ':') then pyStrip (afterColon line) else []
  let cur := if info ≠ [] then setOrExtend st.current ("additional_info".toList) info
             else st.current
  { st with current := cur, sect := some .additionalInfo }

/-- Any other nonempty line: continuation of the open section. -/
def stepCont (st : ScanSt) (line : List Char) : ScanSt :=
  if !st.current.isEmpty then
    if st.sect = some .description ∨
        (st.sect = none ∧ ¬ hasKey st.current ("description".toList)) then
      { st with current := setOrExtend st.current ("description".toList) line }
    else if st.sect = some .whyMatches then
      { st with current := setOrExtend st.current ("why_matches".toList) line }
    else if st.sect = some .additionalInfo then
      { st with current := setOrExtend st.current ("additional_info".toList) line }
    else st
  else st

/-- Process one raw line of the reply, mirroring the big `elif` chain of
`parse_response`. -/
def stepLine (st : ScanSt) (raw : List Char) : ScanSt :=
  let line := pyStrip raw
  if line = [] then st
  else
    let low := lowerL line
    if (line.headD ' ').isDigit ∧
        ((line.take 3).any (· = '.') ∨ (line.take 3).any (· = ':')) then
      stepNumbered st line
    else if ("**".toList).isPrefixOf line ∧ ("**".toList).isSuffixOf line ∧
        line.length > 4 then
      stepBold st line
    else if line.any (· = ':') ∧
        (substrOf ("product".toList) low ∨ substrOf ("name".toList) low ∨
         substrOf ("title".toList) low) then
      stepTitleLabel st line
    else if ("http://".toList).isPrefixOf line ∨ ("https://".toList).isPrefixOf line then
      stepBareUrl st line low
    else if ("url:".toList).isPrefixOf low then
      stepUrlLabel st line
    else if ("image url:".toList).isPrefixOf low ∨ ("image:".toList).isPrefixOf low then
      stepImageLabel st line
    else if ("description:".toList).isPrefixOf low then
      stepDescLabel st line
    else if substrOf ("why".toList) low ∧ substrOf ("match".toList) low then
      stepWhy st line
    else if substrOf ("additional".toList) low ∨ substrOf ("information".toList) low then
      stepAdditional st line
    else
      stepCont st line

/-- The labeled/numbered free-text scan: walk the lines, then flush the
final record. -/
def scanLines (content : List Char) : List Dict :=
  let final := (content.splitOn '\n').foldl stepLine ⟨[], [], none⟩
  flushCur final

/-! ## Fallback parsing paths -/

/-- `re.sub(r'^(Product|Name|Title):?\s*', '', s, flags=IGNORECASE)`. -/
def stripLabelPre (l : List Char) : List Char :=
  let low := lowerL l
  let out := fun (w : List Char) =>
    let r := l.drop w.length
    let r1 := match r with
      | ':' :: t => t
      | _ => r
    r1.dropWhile isWsC
  if ("product".toList).isPrefixOf low then out ("product".toList)
  else if ("name".toList).isPrefixOf low then out ("name".toList)
  else if ("title".toList).isPrefixOf low then out ("title".toList)
  else l

/-- `'\n'.join(stripped nonempty lines)`. -/
def joinNL : List (List Char) → List Char
  | [] => []
  | [x] => x
  | x :: y :: rest => x ++ '\n' :: joinNL (y :: rest)

/-- One numbered section of the fallback splitter turned into a record. -/
def sectionRecord (section_text : List Char) : Dict :=
  let urls := findUrls section_text
  let fb1 : Dict :=
    match urls with
    | [] => []
    | u :: _ => dset [] ("url".toList) (.str u)
  let lines := section_text.splitOn '\n'
  let first_line := pyStrip (lines.headD [])
  let fb2 :=
    if first_line.any (· = ':') then
      let title_part := pyStrip (splitFirst ':' first_line).1
      let title_part2 := stripLabelPre title_part
      dset fb1 ("title".toList)
        (.str (if title_part2 = [] then "Product Recommendation".toList else title_part2))
    else
      match boldSearch first_line with
      | some b => dset fb1 ("title".toList) (.str (pyStrip b))
      | none =>
        dset fb1 ("title".toList)
          (.str (if first_line = [] then "Product Recommendation".toList
                 else first_line.take 100))
  let description := joinNL ((lines.drop 1).map pyStrip |>.filter (· ≠ []))
  if description = [] then fb2
  else dset fb2 ("description".toList) (.str (description.take 500))

/-- Fallback on numbered sections: one record per section, kept when its
title is truthy. -/
def numberedFallback (pairs : List (List Char × List Char)) : List Dict :=
  pairs.foldl
    (fun acc p =>
      let fb := sectionRecord p.2
      if truthyO (dget fb ("title".toList)) then acc ++ [fb] else acc)
    []

/-- Fallback to a single record when no numbered sections exist. -/
def singleFallback (content : List Char) (all_urls : List (List Char)) : List Dict :=
  let product_name :=
    match boldSearch content with
    | some b => b
    | none => "Product Recommendation".toList
  let desc :=
    if content.length > 500 then content.take 500 ++ "...".toList else content
  [dset (dset (dset (dset [] ("title".toList) (.str product_name))
      ("description".toList) (.str desc))
      ("url".toList) (.str ((all_urls.headD []))))
      ("relevance".toList) (.num 1)]

/-- The final URL backfill loop: walk the records with a pool index,
assigning unfilled URLs in order. -/
def backfillGo (urls : List (List Char)) : List Dict → Nat → List Dict
  | [], _ => []
  | r :: rs, i =>
    if ¬ truthyO (dget r ("url".toList)) ∧ i < urls.length then
      dset r ("url".toList) (.str (urls.getD i [])) :: backfillGo urls rs (i + 1)
    else r :: backfillGo urls rs i

/-! ## `parse_response` -/

/-- Lines 386-392 of the source: slice from the first `{` to the last `}`
and feed the result to `json.loads`. -/
def jsonSliceParsed (content : List Char) : Option JVal :=
  match content.findIdx? (· = '{') with
  | none => none
  | some s =>
    match rfindIdx content '}' with
    | none => none
    | some e0 =>
      if e0 + 1 > s then jsonLoads ((content.drop s).take (e0 + 1 - s))
      else none

/-- The embedded-JSON attempt: return the parsed array directly, or the
`results` field of a parsed object. -/
def jsonAttempt (content : List Char) : Option JVal :=
  match jsonSliceParsed content with
  | some (.arr xs) => some (.arr xs)
  | some (.obj fs) =>
    match dget fs ("results".toList) with
    | some v => some v
    | none => none
  | _ => none

/-- The record list before the final URL backfill: the line scan, else
the numbered-section fallback, else the single-record fallback. -/
def parseTextCore (content : List Char) : List Dict :=
  let results0 := scanLines content
  if results0.isEmpty then
    let split := numSplitGo content []
    if !split.2.isEmpty then numberedFallback split.2
    else singleFallback content (findUrls content)
  else results0

/-- The full text-heuristic pipeline: core records, then the final URL
backfill when both records and pool are nonempty. -/
def parseTextPipeline (content : List Char) : List Dict :=
  let results1 := parseTextCore content
  let all_urls := findUrls content
  if !results1.isEmpty && !all_urls.isEmpty then backfillGo all_urls results1 0
  else results1

/-- `parse_response` on the reply text: the embedded-JSON attempt, else
the layered text heuristics with the final URL backfill.  An empty (or
absent) content gives an empty list. -/
def parse_response (content : List Char) : JVal :=
  if content = [] then .arr []
  else
    match jsonAttempt content with
    | some v => v
    | none => .arr ((parseTextPipeline content).map JVal.obj)

/-! ## The text normalizer (`clean_exa_text`, `extract_highlights`) -/

/-- `re.sub(r'\[([^\]]+)\]\([^\)]+\)', r'\1', text)`: replace markdown
links by their text, left to right. -/
def subLinksF : Nat → List Char → List Char
  | 0, l => l
  | _ + 1, [] => []
  | fuel + 1, c :: rest =>
    if c = '[' then
      let inner := rest.takeWhile (· ≠ ']')
      let r3 := (rest.drop inner.length).drop 2
      let urlrun := r3.takeWhile (· ≠ ')')
      if inner ≠ [] ∧ (rest.drop inner.length).take 2 = [']', '('] ∧
          urlrun ≠ [] ∧ (r3.drop urlrun.length).take 1 = [')'] then
        inner ++ subLinksF fuel ((r3.drop urlrun.length).drop 1)
      else '[' :: subLinksF fuel rest
    else c :: subLinksF fuel rest

/-- The markdown-link substitution at sufficient fuel. -/
def subLinks (l : List Char) : List Char := subLinksF l.length l

/-- `re.sub(r'#{1,6}\s*', '', text)`: strip heading markers with the
whitespace that follows. -/
def subHashGo : Bool → List Char → List Char
  | _, [] => []
  | skip, c :: rest =>
    if c = '#' then subHashGo true rest
    else if skip ∧ isWsC c then subHashGo true rest
    else c :: subHashGo false rest

/-- The heading substitution: every `#` is consumed by some
`#{1,6}` group and the whitespace run after the last `#` of a run is
consumed by that group's `\s*`, so the substitution drops every `#` and
any whitespace directly following one. -/
def subHash (l : List Char) : List Char := subHashGo false l

/-- `text.replace('*', ' ')`. -/
def starRepl (l : List Char) : List Char :=
  l.map (fun c => if c = '*' then ' ' else c)

/-- `text.replace('\\n', ' ')`: each literal backslash-n pair becomes a
space (left to right, non-overlapping). -/
def bsnRepl : List Char → List Char
  | [] => []
  | [c] => [c]
  | a :: b :: rest =>
    if a = '\\' ∧ b = 'n' then ' ' :: bsnRepl rest
    else a :: bsnRepl (b :: rest)

/-- `re.sub(r'\s+', ' ', text)`: collapse whitespace runs to one space. -/
def collapseGo : Bool → List Char → List Char
  | _, [] => []
  | prevWs, c :: rest =>
    if isWsC c then
      if prevWs then collapseGo true rest else ' ' :: collapseGo true rest
    else c :: collapseGo false rest

/-- Whitespace-run collapsing: the first character of each run becomes
one space, the rest of the run is dropped. -/
def collapseWs (l : List Char) : List Char := collapseGo false l

/-- `clean_exa_text`: clean a raw snippet into a compact summary. -/
def clean_exa_text (text : Option (List Char)) (max_length : Nat := 400) :
    Option (List Char) :=
  match text with
  | none => none
  | some t =>
    if t.isEmpty then none
    else
      let cleaned := pyStrip (collapseWs (bsnRepl (starRepl (subHash (subLinks t)))))
      if cleaned.isEmpty then none
      else if cleaned.length > max_length then
        let truncated := cleaned.take max_length
        match rfindIdx truncated '.' with
        | some lp =>
          if lp > 120 then some (truncated.take (lp + 1))
          else some (pyStrip truncated ++ ['…'])
        | none => some (pyStrip truncated ++ ['…'])
      else some cleaned

/-- The character set of Python `lstrip('-*0123456789. )')` in
`extract_highlights`. -/
def bulletLead (c : Char) : Bool :=
  c = '-' || c = '*' || c.isDigit || c = '.' || c = ' ' || c = ')'

/-- `re.match(r'^\d+[\.\)]\s', s)`: a numbered-list prefix. -/
def numBulletPre (l : List Char) : Bool :=
  let ds := l.takeWhile Char.isDigit
  if ds = [] then false
  else
    match l.drop ds.length with
    | '.' :: c :: _ => isWsC c
    | ')' :: c :: _ => isWsC c
    | _ => false

/-- `extract_highlights`: collect up to `max_items` cleaned bullet-like
lines. -/
def extract_highlights (text : List Char) (max_items : Nat := 4) :
    Option (List (List Char)) :=
  if text.isEmpty then none
  else
    let step := fun (acc : List (List Char)) (line : List Char) =>
      if acc.length ≥ max_items then acc
      else
        let stripped := pyStrip line
        if stripped.isEmpty then acc
        else if (stripped.headD ' ' = '-') || (stripped.headD ' ' = '*') ||
            numBulletPre stripped then
          match clean_exa_text (some (stripped.dropWhile bulletLead)) with
          | some cl => acc ++ [cl]
          | none => acc
        else acc
    let highlights := (text.splitOn '\n').foldl step []
    if highlights.isEmpty then none else some highlights

/-! ## The result fuser -/

/-- Python `str.split()`: maximal nonempty runs of non-whitespace. -/
def wsWordsF : Nat → List Char → List (List Char)
  | _, [] => []
  | 0, _ => []
  | fuel + 1, c :: rest =>
    if isWsC c then wsWordsF fuel rest
    else
      let w := (c :: rest).takeWhile (fun ch => !isWsC ch)
      w :: wsWordsF fuel ((c :: rest).drop w.length)

/-- `str.split()` wrapper at sufficient fuel. -/
def wsWords (l : List Char) : List (List Char) := wsWordsF l.length l

/-- The `titles_match` closure: containment either way on lowercased
titles, or at least two shared words longer than three characters. -/
def titlesMatch (pt rawTitle : List Char) : Bool :=
  let e := lowerL rawTitle
  if e.isEmpty then false
  else if substrOf pt e || substrOf e pt then true
  else
    let pw := ((wsWords pt).filter (fun w => w.length > 3)).dedup
    let ew := (wsWords e).filter (fun w => w.length > 3)
    decide ((pw.filter (fun w => decide (w ∈ ew))).length ≥ 2)

/-- Fill the record's url from the entry when absent (falsy). -/
def fillUrl (r e : Dict) : Dict :=
  if !truthyO (dget r ("url".toList)) && truthyO (dget e ("url".toList)) then
    dset r ("url".toList) ((dget e ("url".toList)).getD .null)
  else r

/-- Fill the record's image_url from the entry when absent. -/
def fillImage (r e : Dict) : Dict :=
  if !truthyO (dget r ("image_url".toList)) && truthyO (dget e ("image_url".toList)) then
    dset r ("image_url".toList) ((dget e ("image_url".toList)).getD .null)
  else r

/-- Fill the record's description with the cleaned entry snippet when
absent. -/
def fillDescr (r e : Dict) : Dict :=
  if !truthyO (dget r ("description".toList)) then
    match clean_exa_text
        (match pyOrJ (dget e ("description".toList)) (dget e ("text".toList)) with
         | some (.str s) => some s
         | _ => none) with
    | some cl => if cl.isEmpty then r else dset r ("description".toList) (.str cl)
    | none => r
  else r

/-- Fill the record's highlights from the entry's raw text when absent. -/
def fillHighl (r e : Dict) : Dict :=
  if !truthyO (dget r ("highlights".toList)) then
    match extract_highlights (asTextD (dget e ("text".toList))) with
    | some hs => dset r ("highlights".toList) (.arr (hs.map JVal.str))
    | none => r
  else r

/-- Fill the absent (falsy) url/image_url/description/highlights of a
record from a secondary entry, as both fusion passes do. -/
def fillFrom (r e : Dict) : Dict :=
  fillHighl (fillDescr (fillImage (fillUrl r e) e) e) e

/-- First indexed entry satisfying the predicate (the `enumerate` scans of
the two fusion passes). -/
def findEnt (p : Nat → Dict → Bool) : Nat → List Dict → Option (Nat × Dict)
  | _, [] => none
  | i, e :: rest => if p i e then some (i, e) else findEnt p (i + 1) rest

/-- A record still misses its url or image. -/
def missingUI (r : Dict) : Bool :=
  !truthyO (dget r ("url".toList)) || !truthyO (dget r ("image_url".toList))

/-- The fusion loop of `_search_with_e2b_exa_single_attempt` (lines
194-250): records in order, a used-index set threaded through both
passes. -/
def fuseGo (exa : List Dict) : List Dict → List Nat → List Dict × List Nat
  | [], used => ([], used)
  | rec :: rs, used =>
    let pt := lowerL (asTextD (dget rec ("title".toList)))
    let p1 :=
      if missingUI rec then
        findEnt (fun i e => !used.contains i &&
          titlesMatch pt (asTextD (dget e ("title".toList)))) 0 exa
      else none
    let (rec1, used1) :=
      match p1 with
      | some ie => (fillFrom rec ie.2, ie.1 :: used)
      | none => (rec, used)
    let (rec2, used2) :=
      if missingUI rec1 then
        match findEnt (fun i _ => !used1.contains i) 0 exa with
        | some ie => (fillFrom rec1 ie.2, ie.1 :: used1)
        | none => (rec1, used1)
      else (rec1, used1)
    let rest := fuseGo exa rs used2
    (rec2 :: rest.1, rest.2)

/-- The fuser on the parsed records and the captured secondary entries. -/
def fuseResults (recs exa : List Dict) : List Dict :=
  (fuseGo exa recs []).1

/-- Modelled from the spec (§4.4 Result Fuser), with the pass-2 trigger
amended to match the code: for each record missing a url or image, pass 1
fills missing fields from the first not-yet-used title-matching secondary
entry and consumes it; pass 2 runs whenever fields remain missing after
pass 1 (whether or not pass 1 found a match) and consumes the next unused
entry unconditionally.  The not-yet-used entries are carried as an ordered
list. -/
def fuseSpecGo : List Dict → List (Nat × Dict) → List Dict
  | [], _ => []
  | rec :: rs, avail =>
    let pt := lowerL (asTextD (dget rec ("title".toList)))
    let p1 :=
      if missingUI rec then
        avail.find? (fun ie => titlesMatch pt (asTextD (dget ie.2 ("title".toList))))
      else none
    let (rec1, avail1) :=
      match p1 with
      | some ie => (fillFrom rec ie.2, avail.filter (fun (je : Nat × Dict) => decide (je.1 ≠ ie.1)))
      | none => (rec, avail)
    let (rec2, avail2) :=
      if missingUI rec1 then
        match avail1 with
        | ie :: _ => (fillFrom rec1 ie.2, avail1.filter (fun (je : Nat × Dict) => decide (je.1 ≠ ie.1)))
        | [] => (rec1, avail1)
      else (rec1, avail1)
    rec2 :: fuseSpecGo rs avail2

/-- The amended-spec fuser. -/
def fuseSpec (recs exa : List Dict) : List Dict :=
  fuseSpecGo recs exa.enum

/-- Modelled from the spec claim as stated: pass 2 runs only when pass 1
found no match and fields remain missing. -/
def fuseSpecClaimGo : List Dict → List (Nat × Dict) → List Dict
  | [], _ => []
  | rec :: rs, avail =>
    let pt := lowerL (asTextD (dget rec ("title".toList)))
    let p1 :=
      if missingUI rec then
        avail.find? (fun ie => titlesMatch pt (asTextD (dget ie.2 ("title".toList))))
      else none
    let (rec1, avail1) :=
      match p1 with
      | some ie => (fillFrom rec ie.2, avail.filter (fun (je : Nat × Dict) => decide (je.1 ≠ ie.1)))
      | none => (rec, avail)
    let (rec2, avail2) :=
      if p1.isNone && missingUI rec1 then
        match avail1 with
        | ie :: _ => (fillFrom rec1 ie.2, avail1.filter (fun (je : Nat × Dict) => decide (je.1 ≠ ie.1)))
        | [] => (rec1, avail1)
      else (rec1, avail1)
    rec2 :: fuseSpecClaimGo rs avail2

/-- The fuser under the claim's own description of pass 2. -/
def fuseSpecClaim (recs exa : List Dict) : List Dict :=
  fuseSpecClaimGo recs exa.enum

/-! ## Prompt builder (`build_search_prompt`) -/

/-- `'\n'.join` of preformatted pieces. -/
def joinNL2 : List (List Char) → List Char
  | [] => []
  | [x] => x
  | x :: y :: rest => x ++ '\n' :: joinNL2 (y :: rest)

/-- `questions_map.get(q_id, q_id)` where `questions_map` maps each
question id to its text (later duplicates override). -/
def qText (questions : List (List Char × List Char)) (qid : List Char) : List Char :=
  match questions.reverse.find? (fun q => decide (q.1 = qid)) with
  | some q => q.2
  | none => qid

/-- The preference lines `- {question text}: {answer}` joined by
newlines. -/
def answersText (user_answers questions : List (List Char × List Char)) :
    List Char :=
  joinNL2 (user_answers.map (fun qa =>
    ['-', ' '] ++ qText questions qa.1 ++ [':', ' '] ++ qa.2))

/-- The ranking directive appended for "top"/"best" queries. -/
def rankDirective : List Char :=
  "\nReturn the top results ranked by relevance and quality.".toList

/-- The exclusion directive appended for negation language. -/
def exclDirective : List Char :=
  "\nExclude items the user has already purchased or watched.".toList

/-- The unconditional head of the search prompt. -/
def basePrompt (user_query : List Char)
    (user_answers questions : List (List Char × List Char)) : List Char :=
  "User wants: ".toList ++ user_query ++
    "\n\nUser Preferences:\n".toList ++ answersText user_answers questions ++
    "\n\nPlease search for relevant products and provide recommendations based on these preferences.\n".toList

/-- The user-id history hint appended with the exclusion directive. -/
def uidHint : Option (List Char) → List Char
  | some uid =>
    if uid.isEmpty then []
    else "\nUser ID: ".toList ++ uid ++
      " (check purchase/watch history if available)".toList
  | none => []

/-- The closing instruction of every search prompt. -/
def closingDirective : List Char :=
  "\n\nProvide a clear, structured list of recommendations with titles, descriptions, and relevant details.".toList

/-- `build_search_prompt`. -/
def build_search_prompt (user_query : List Char)
    (user_answers questions : List (List Char × List Char))
    (user_id : Option (List Char)) : List Char :=
  let low := lowerL user_query
  let base := basePrompt user_query user_answers questions
  let p1 :=
    if substrOf ("top".toList) low || substrOf ("best".toList) low then
      base ++ rankDirective
    else base
  let p2 :=
    if substrOf ("haven't".toList) low || substrOf ("didn't".toList) low ||
        substrOf ("not".toList) low then
      p1 ++ exclDirective ++ uidHint user_id
    else p1
  p2 ++ closingDirective

/-! ## Retry orchestrators -/

/-- The tagged outcome of a single attempt of a retried operation:
success, a `ValueError` (validation/configuration, never retried), or any
other exception (transient, retried). -/
inductive Outcome (α : Type) where
  | success (payload : α)
  | validationFailure (msg : List Char)
  | transientFailure (msg : List Char)

/-- What `generate_questions_with_retry` raises. -/
inductive GenErr where
  | valueError (msg : List Char)
  | exhausted (msg : List Char)
deriving DecidableEq

/-- A run of the question-generation orchestrator: the returned value or
raised error, the backoff sleeps performed in order, and the number of
attempts made. -/
structure GenRun (α : Type) where
  result : Except GenErr α
  sleeps : List Nat
  attemptsMade : Nat

def QG_MAX_RETRIES : Nat := 4

/-- Message of the error raised after exhausting all question-generation
attempts. -/
def genExhaustMsg (last : List Char) : List Char :=
  "Question generation failed after ".toList ++ Nat.toDigits 10 QG_MAX_RETRIES ++
  " attempts. Last error: ".toList ++ last

/-- The `for attempt in range(1, MAX_RETRIES + 1)` loop of
`generate_questions_with_retry`, with the outcome of each attempt given
by `f`. -/
def genRetryFrom {α : Type} (f : Nat → Outcome α) :
    Nat → List Nat → List Char → GenRun α
  | attempt, sleeps, last =>
    if attempt > QG_MAX_RETRIES then
      ⟨.error (.exhausted (genExhaustMsg last)), sleeps, QG_MAX_RETRIES⟩
    else
      match f attempt with
      | .success q => ⟨.ok q, sleeps, attempt⟩
      | .validationFailure m =>
        ⟨.error (.valueError ("Question generation failed: ".toList ++ m)),
         sleeps, attempt⟩
      | .transientFailure m =>
        if attempt < QG_MAX_RETRIES then
          genRetryFrom f (attempt + 1) (sleeps ++ [2 ^ (attempt - 1)]) m
        else genRetryFrom f (attempt + 1) sleeps m
termination_by attempt _ _ => QG_MAX_RETRIES + 1 - attempt

/-- `generate_questions_with_retry` over the attempt outcomes. -/
def generate_questions_with_retry {α : Type} (f : Nat → Outcome α) : GenRun α :=
  genRetryFrom f 1 [] "None".toList

/-- The structured result envelope of the search entry point. -/
structure Envelope where
  success : Bool
  results : JVal
  error : Option (List Char)

/-- A run of the search orchestrator. -/
structure SearchRun where
  envelope : Envelope
  sleeps : List Nat
  attemptsMade : Nat

def SS_MAX_RETRIES : Nat := 3

/-- Error string of the envelope returned after exhausting all search
attempts. -/
def searchExhaustMsg (last : List Char) : List Char :=
  "Search failed after ".toList ++ Nat.toDigits 10 SS_MAX_RETRIES ++
  " attempts. Last error: ".toList ++ last

/-- The retry loop of `search_with_e2b_exa` over the attempt outcomes. -/
def searchRetryFrom (f : Nat → Outcome Envelope) :
    Nat → List Nat → List Char → SearchRun
  | attempt, sleeps, last =>
    if attempt > SS_MAX_RETRIES then
      ⟨⟨false, .arr [], some (searchExhaustMsg last)⟩, sleeps, SS_MAX_RETRIES⟩
    else
      match f attempt with
      | .success env => ⟨env, sleeps, attempt⟩
      | .validationFailure m =>
        ⟨⟨false, .arr [], some ("Configuration error: ".toList ++ m)⟩, sleeps, attempt⟩
      | .transientFailure m =>
        if attempt < SS_MAX_RETRIES then
          searchRetryFrom f (attempt + 1) (sleeps ++ [2 ^ attempt]) m
        else searchRetryFrom f (attempt + 1) sleeps m
termination_by attempt _ _ => SS_MAX_RETRIES + 1 - attempt

/-! ## The search single attempt -/

/-- The credentials read from the environment; `none` for an unset
variable (an empty string is likewise falsy). -/
structure ApiEnv where
  e2b_api_key : Option (List Char)
  exa_api_key : Option (List Char)
  groq_api_key : Option (List Char)

/-- `if not key:`. -/
def keyMissing : Option (List Char) → Bool
  | none => true
  | some s => s.isEmpty

/-- What one sandbox-plus-model round trip yields when it is performed: a
raised exception, or the final reply text with the raw Exa records
captured from the executed MCP tool. -/
inductive RemoteResult where
  | raised (msg : List Char)
  | reply (content : List Char) (exaRaw : List Dict)

/-- One stored secondary entry built from a raw Exa record (lines
182-188 of the source). -/
def storeExa (res : Dict) : Dict :=
  [("title".toList, (pyOrJ (dget res ("title".toList)) (dget res ("id".toList))).getD .null),
   ("url".toList, (dget res ("url".toList)).getD .null),
   ("image_url".toList, (pyOrJ (dget res ("image".toList)) (dget res ("favicon".toList))).getD .null),
   ("description".toList, (dget res ("text".toList)).getD .null)]

/-- All elements of the parsed list as dictionaries; `none` when any is
not one (Python would then fail on `.get`/`.keys` and the attempt would
raise). -/
def allObjs : List JVal → Option (List Dict)
  | [] => some []
  | .obj d :: rest => (allObjs rest).map (d :: ·)
  | _ => none

/-- `_search_with_e2b_exa_single_attempt`: check the three credentials
before any remote work, then parse the reply, fuse in the stored Exa
records and return the success envelope; a raised remote error is a
transient failure. -/
def searchSingleAttempt (env : ApiEnv) (remote : RemoteResult) : Outcome Envelope :=
  if keyMissing env.e2b_api_key then
    .validationFailure ("E2B_API_KEY environment variable is not set".toList)
  else if keyMissing env.exa_api_key then
    .validationFailure ("EXA_API_KEY environment variable is not set".toList)
  else if keyMissing env.groq_api_key then
    .validationFailure ("GROQ_API_KEY environment variable is not set".toList)
  else
    match remote with
    | .raised m => .transientFailure m
    | .reply content exaRaw =>
      let result := parse_response content
      let stored := exaRaw.map storeExa
      if !truthy result then .success ⟨true, result, none⟩
      else
        match result with
        | .arr elems =>
          match allObjs elems with
          | some recs =>
            let fused :=
              if !recs.isEmpty && !stored.isEmpty then fuseResults recs stored
              else recs
            .success ⟨true, .arr (fused.map JVal.obj), none⟩
          | none => .transientFailure ("TypeError in result post-processing".toList)
        | _ => .transientFailure ("TypeError in result post-processing".toList)

/-- The search retry loop over abstract attempt outcomes. -/
def searchRetry (f : Nat → Outcome Envelope) : SearchRun :=
  searchRetryFrom f 1 [] "None".toList

/-- `search_with_e2b_exa`: the retry loop around the single attempt, the
behavior of the remote call at each attempt given by `remotes`. -/
def search_with_e2b_exa (env : ApiEnv) (remotes : Nat → RemoteResult) : SearchRun :=
  searchRetry (fun i => searchSingleAttempt env (remotes i))

/-! ## Claim theorems -/

/-- C3: when every attempt fails transiently, the question-generation
orchestrator makes exactly 4 attempts, sleeps 1, 2, 4 seconds between
them, and raises an error embedding the attempt count and the last
transient error; the search orchestrator makes exactly 3 attempts, sleeps
2, 4 seconds, and returns the failure envelope with success false, empty
results, and an error embedding the attempt count and last error; each
sleeps exactly M-1 times. -/
theorem C3_exhaustion {α : Type} (f : Nat → Outcome α) (g : Nat → Outcome Envelope)
    (mf mg : Nat → List Char)
    (hf : ∀ i, f i = .transientFailure (mf i))
    (hg : ∀ i, g i = .transientFailure (mg i)) :
    generate_questions_with_retry f =
      ⟨.error (.exhausted (genExhaustMsg (mf 4))), [1, 2, 4], 4⟩ ∧
    searchRetry g =
      ⟨⟨false, .arr [], some (searchExhaustMsg (mg 3))⟩, [2, 4], 3⟩ := by
  constructor
  · rw [generate_questions_with_retry]
    rw [genRetryFrom, hf 1]
    norm_num [QG_MAX_RETRIES]
    rw [genRetryFrom, hf 2]
    norm_num [QG_MAX_RETRIES]
    rw [genRetryFrom, hf 3]
    norm_num [QG_MAX_RETRIES]
    rw [genRetryFrom, hf 4]
    norm_num [QG_MAX_RETRIES]
    rw [genRetryFrom]
    norm_num [QG_MAX_RETRIES]
  · rw [searchRetry, searchRetryFrom, hg 1]
    norm_num [SS_MAX_RETRIES]
    rw [searchRetryFrom, hg 2]
    norm_num [SS_MAX_RETRIES]
    rw [searchRetryFrom, hg 3]
    norm_num [SS_MAX_RETRIES]
    rw [searchRetryFrom]
    norm_num [SS_MAX_RETRIES]

/-- Witness for C3 at the constant transient behaviors. -/
theorem C3_exhaustion_witness :
    generate_questions_with_retry
        (fun _ => (Outcome.transientFailure "boom".toList : Outcome Unit)) =
      ⟨.error (.exhausted (genExhaustMsg ("boom".toList))), [1, 2, 4], 4⟩ ∧
    searchRetry (fun _ => .transientFailure "net down".toList) =
      ⟨⟨false, .arr [], some (searchExhaustMsg ("net down".toList))⟩, [2, 4], 3⟩ :=
  C3_exhaustion (fun _ => .transientFailure "boom".toList)
    (fun _ => .transientFailure "net down".toList)
    (fun _ => "boom".toList) (fun _ => "net down".toList)
    (fun _ => rfl) (fun _ => rfl)

/-- C4: a validation failure on the first attempt makes the
question-generation orchestrator re-raise immediately and the search
orchestrator return the failure envelope immediately; neither sleeps nor
makes a second attempt. -/
theorem C4_validation_immediate {α : Type} (f : Nat → Outcome α)
    (g : Nat → Outcome Envelope) (m m2 : List Char)
    (hf : f 1 = .validationFailure m) (hg : g 1 = .validationFailure m2) :
    generate_questions_with_retry f =
      ⟨.error (.valueError ("Question generation failed: ".toList ++ m)), [], 1⟩ ∧
    searchRetry g =
      ⟨⟨false, .arr [], some ("Configuration error: ".toList ++ m2)⟩, [], 1⟩ := by
  constructor
  · rw [generate_questions_with_retry, genRetryFrom, hf]
    norm_num [QG_MAX_RETRIES]
  · rw [searchRetry, searchRetryFrom, hg]
    norm_num [SS_MAX_RETRIES]

/-- Witness for C4 at concrete validation failures. -/
theorem C4_validation_immediate_witness :
    generate_questions_with_retry
        (fun _ => (Outcome.validationFailure "bad schema".toList : Outcome Unit)) =
      ⟨.error (.valueError ("Question generation failed: ".toList ++ "bad schema".toList)), [], 1⟩ ∧
    searchRetry (fun _ => .validationFailure "no key".toList) =
      ⟨⟨false, .arr [], some ("Configuration error: ".toList ++ "no key".toList)⟩, [], 1⟩ :=
  C4_validation_immediate (fun _ => .validationFailure "bad schema".toList)
    (fun _ => .validationFailure "no key".toList)
    ("bad schema".toList) ("no key".toList) rfl rfl

/-- A successful single search attempt always carries a success-true
envelope with no error. -/
theorem searchSingleAttempt_success (env : ApiEnv) (remote : RemoteResult)
    (e : Envelope) (h : searchSingleAttempt env remote = .success e) :
    e.success = true ∧ e.error = none := by
  unfold searchSingleAttempt at h
  dsimp only at h
  repeat' split at h
  all_goals cases h
  all_goals exact ⟨rfl, rfl⟩

/-- Any run of the search retry loop over attempts that only succeed with
success-true envelopes yields the structured failure shape on failure. -/
theorem searchRetryFrom_shape (f : Nat → Outcome Envelope)
    (hf : ∀ i e, f i = .success e → e.success = true ∧ e.error = none) :
    ∀ (k attempt : Nat) (sleeps : List Nat) (last : List Char),
      SS_MAX_RETRIES + 1 - attempt ≤ k →
      ((searchRetryFrom f attempt sleeps last).envelope.success = false →
        (searchRetryFrom f attempt sleeps last).envelope.error.isSome = true ∧
        (searchRetryFrom f attempt sleeps last).envelope.results = .arr []) := by
  intro k
  induction k with
  | zero =>
    intro attempt sleeps last hle
    have hgt : attempt > SS_MAX_RETRIES := by omega
    rw [searchRetryFrom]
    simp [hgt]
  | succ k ih =>
    intro attempt sleeps last hle
    rw [searchRetryFrom]
    by_cases hgt : attempt > SS_MAX_RETRIES
    · simp [hgt]
    · simp only [hgt, if_false]
      cases he : f attempt with
      | success e =>
        have h2 := hf attempt e he
        simp [h2.1, h2.2]
      | validationFailure m => simp
      | transientFailure m =>
        by_cases hlt : attempt < SS_MAX_RETRIES
        · simp only [hlt, if_true]
          exact ih (attempt + 1) _ m (by omega)
        · simp only [hlt, if_false]
          exact ih (attempt + 1) sleeps m (by omega)

/-- With a missing credential the single attempt fails validation with the
same message whatever the remote behavior would have been. -/
theorem missingKey_attempt (env : ApiEnv)
    (h : (keyMissing env.e2b_api_key || keyMissing env.exa_api_key ||
          keyMissing env.groq_api_key) = true) :
    ∃ m, ∀ r : RemoteResult, searchSingleAttempt env r = .validationFailure m := by
  by_cases h1 : keyMissing env.e2b_api_key
  · exact ⟨"E2B_API_KEY environment variable is not set".toList,
      fun r => by unfold searchSingleAttempt; simp [h1]⟩
  · by_cases h2 : keyMissing env.exa_api_key
    · exact ⟨"EXA_API_KEY environment variable is not set".toList,
        fun r => by unfold searchSingleAttempt; simp [h1, h2]⟩
    · have h3 : keyMissing env.groq_api_key = true := by
        simp [h1, h2] at h
        exact h
      exact ⟨"GROQ_API_KEY environment variable is not set".toList,
        fun r => by unfold searchSingleAttempt; simp [h1, h2, h3]⟩

/-- C5: the search entry point always returns the structured envelope —
when it reports failure the envelope carries an error and an empty result
list — and a missing E2B/Exa/Groq credential makes it report a structured
failure whose value does not depend on the remote behavior at all (no
remote call is consulted). -/
theorem C5_structured_envelope (env : ApiEnv) (remotes : Nat → RemoteResult) :
    ((search_with_e2b_exa env remotes).envelope.success = false →
      (search_with_e2b_exa env remotes).envelope.error.isSome = true ∧
      (search_with_e2b_exa env remotes).envelope.results = .arr []) ∧
    ((keyMissing env.e2b_api_key || keyMissing env.exa_api_key ||
        keyMissing env.groq_api_key) = true →
      (search_with_e2b_exa env remotes).envelope.success = false ∧
      ∀ remotes2, search_with_e2b_exa env remotes2 = search_with_e2b_exa env remotes) := by
  constructor
  · intro hfail
    exact searchRetryFrom_shape _
      (fun i e he => searchSingleAttempt_success env (remotes i) e he)
      (SS_MAX_RETRIES + 1) 1 [] ("None".toList) (by omega) hfail
  · intro hmiss
    obtain ⟨m, hm⟩ := missingKey_attempt env hmiss
    have hrun : ∀ rs : Nat → RemoteResult, search_with_e2b_exa env rs =
        ⟨⟨false, .arr [], some ("Configuration error: ".toList ++ m)⟩, [], 1⟩ := by
      intro rs
      rw [search_with_e2b_exa, searchRetry, searchRetryFrom]
      simp [SS_MAX_RETRIES, hm (rs 1)]
    constructor
    · rw [hrun remotes]
    · intro remotes2
      rw [hrun remotes, hrun remotes2]

/-- Witness for C5 at a concrete environment missing its Exa key. -/
theorem C5_structured_envelope_witness :
    ((search_with_e2b_exa ⟨some ("k1".toList), none, some ("k3".toList)⟩
        (fun _ => .raised ("boom".toList))).envelope.success = false →
      (search_with_e2b_exa ⟨some ("k1".toList), none, some ("k3".toList)⟩
        (fun _ => .raised ("boom".toList))).envelope.error.isSome = true ∧
      (search_with_e2b_exa ⟨some ("k1".toList), none, some ("k3".toList)⟩
        (fun _ => .raised ("boom".toList))).envelope.results = .arr []) ∧
    ((search_with_e2b_exa ⟨some ("k1".toList), none, some ("k3".toList)⟩
        (fun _ => .raised ("boom".toList))).envelope.success = false ∧
     ∀ remotes2, search_with_e2b_exa ⟨some ("k1".toList), none, some ("k3".toList)⟩ remotes2 =
       search_with_e2b_exa ⟨some ("k1".toList), none, some ("k3".toList)⟩
         (fun _ => .raised ("boom".toList))) :=
  ⟨(C5_structured_envelope ⟨some ("k1".toList), none, some ("k3".toList)⟩
      (fun _ => .raised ("boom".toList))).1,
   (C5_structured_envelope ⟨some ("k1".toList), none, some ("k3".toList)⟩
      (fun _ => .raised ("boom".toList))).2 rfl⟩

/-- C6: when the text between the first left brace and the last right
brace parses as JSON to an array, or to an object with a `results` field,
`parse_response` returns that structure directly, bypassing the text
heuristics. -/
theorem C6_embedded_json (content : List Char) (h : content.isEmpty = false)
    (xs : List JVal) (fs : Dict) (v : JVal) :
    (jsonSliceParsed content = some (.arr xs) → parse_response content = .arr xs) ∧
    (jsonSliceParsed content = some (.obj fs) → dget fs ("results".toList) = some v →
      parse_response content = v) := by
  have hne : ¬ content = [] := by
    cases content with
    | nil => simp at h
    | cons c rest => simp
  constructor
  · intro hj
    have hja : jsonAttempt content = some (.arr xs) := by
      unfold jsonAttempt
      rw [hj]
    unfold parse_response
    rw [if_neg hne, hja]
  · intro hj hr
    have hja : jsonAttempt content = some v := by
      unfold jsonAttempt
      rw [hj]
      dsimp only
      rw [hr]
    unfold parse_response
    rw [if_neg hne, hja]

/-- Witness for C6 at the documented example reply. -/
theorem C6_embedded_json_witness :
    parse_response ("\x7b\"results\":[\x7b\"title\":\"A\",\"url\":\"http://x\"\x7d]\x7d".toList) =
      .arr [.obj [("title".toList, .str ("A".toList)),
                  ("url".toList, .str ("http://x".toList))]] :=
  (C6_embedded_json ("\x7b\"results\":[\x7b\"title\":\"A\",\"url\":\"http://x\"\x7d]\x7d".toList)
      rfl []
      [("results".toList,
        JVal.arr [.obj [("title".toList, .str ("A".toList)),
                        ("url".toList, .str ("http://x".toList))]])]
      (JVal.arr [.obj [("title".toList, .str ("A".toList)),
                       ("url".toList, .str ("http://x".toList))]])).2 rfl rfl

/-- C10: ranking and negation language are detected by raw substring
containment on the lowercased query: any query containing "top" or "best"
gets the ranking directive appended, and any query containing "not",
"haven't" or "didn't" gets the exclusion directive appended, regardless of
word boundaries. -/
theorem C10_substring_directives (user_query : List Char)
    (ua qs : List (List Char × List Char)) (uid : Option (List Char)) :
    ((substrOf ("top".toList) (lowerL user_query) ||
      substrOf ("best".toList) (lowerL user_query)) = true →
      ∃ s1 s2, build_search_prompt user_query ua qs uid = s1 ++ rankDirective ++ s2) ∧
    ((substrOf ("haven't".toList) (lowerL user_query) ||
      substrOf ("didn't".toList) (lowerL user_query) ||
      substrOf ("not".toList) (lowerL user_query)) = true →
      ∃ s3 s4, build_search_prompt user_query ua qs uid = s3 ++ exclDirective ++ s4) := by
  constructor
  · intro h1
    unfold build_search_prompt
    simp only [h1, if_true]
    by_cases h2 : (substrOf ("haven't".toList) (lowerL user_query) ||
        substrOf ("didn't".toList) (lowerL user_query) ||
        substrOf ("not".toList) (lowerL user_query)) = true
    · simp only [h2, if_true]
      exact ⟨basePrompt user_query ua qs,
        exclDirective ++ uidHint uid ++ closingDirective,
        by simp [List.append_assoc]⟩
    · simp only [h2, if_false]
      exact ⟨basePrompt user_query ua qs, closingDirective,
        by simp [List.append_assoc]⟩
  · intro h2
    unfold build_search_prompt
    simp only [h2, if_true]
    by_cases h1 : (substrOf ("top".toList) (lowerL user_query) ||
        substrOf ("best".toList) (lowerL user_query)) = true
    · simp only [h1, if_true]
      exact ⟨basePrompt user_query ua qs ++ rankDirective,
        uidHint uid ++ closingDirective, by simp [List.append_assoc]⟩
    · simp only [h1, if_false]
      exact ⟨basePrompt user_query ua qs, uidHint uid ++ closingDirective,
        by simp [List.append_assoc]⟩

/-- Witness for C10 on the query "laptop cannot x": "laptop" contains
"top" and "cannot" contains "not". -/
theorem C10_substring_directives_witness :
    (∃ s1 s2, build_search_prompt ("laptop cannot x".toList) [] [] none =
      s1 ++ rankDirective ++ s2) ∧
    (∃ s3 s4, build_search_prompt ("laptop cannot x".toList) [] [] none =
      s3 ++ exclDirective ++ s4) :=
  ⟨(C10_substring_directives ("laptop cannot x".toList) [] [] none).1 (by decide),
   (C10_substring_directives ("laptop cannot x".toList) [] [] none).2 (by decide)⟩

/-! ## Title invariants of the text-heuristic parsing paths (C1) -/

/-- A record carries a truthy title. -/
def TitleOK (d : Dict) : Prop := truthyO (dget d ("title".toList)) = true

theorem flushCur_titles (st : ScanSt) (h : ∀ d ∈ st.results, TitleOK d) :
    ∀ d ∈ flushCur st, TitleOK d := by
  intro d hd
  unfold flushCur at hd
  split at hd
  · rcases List.mem_append.1 hd with h1 | h1
    · exact h d h1
    · rename_i hguard
      rw [Bool.and_eq_true] at hguard
      have h3 : d = st.current := by simpa using h1
      subst h3
      exact hguard.2
  · exact h d hd

theorem stepNumbered_results (st : ScanSt) (line : List Char) :
    (stepNumbered st line).results = flushCur st := rfl

theorem stepBold_results (st : ScanSt) (line : List Char) :
    (stepBold st line).results = flushCur st := rfl

theorem stepUrlLabel_results (st : ScanSt) (line : List Char) :
    (stepUrlLabel st line).results = st.results := rfl

theorem stepImageLabel_results (st : ScanSt) (line : List Char) :
    (stepImageLabel st line).results = st.results := rfl

theorem stepDescLabel_results (st : ScanSt) (line : List Char) :
    (stepDescLabel st line).results = st.results := rfl

theorem stepWhy_results (st : ScanSt) (line : List Char) :
    (stepWhy st line).results = st.results := rfl

theorem stepAdditional_results (st : ScanSt) (line : List Char) :
    (stepAdditional st line).results = st.results := rfl

theorem stepTitleLabel_results (st : ScanSt) (line : List Char) :
    (stepTitleLabel st line).results = st.results := by
  unfold stepTitleLabel
  dsimp only
  split <;> rfl

theorem stepBareUrl_results (st : ScanSt) (line low : List Char) :
    (stepBareUrl st line low).results = st.results := by
  unfold stepBareUrl
  split <;> rfl

theorem stepCont_results (st : ScanSt) (line : List Char) :
    (stepCont st line).results = st.results := by
  unfold stepCont
  repeat' split
  all_goals rfl

set_option maxHeartbeats 1600000 in
theorem stepLine_titles (st : ScanSt) (raw : List Char)
    (h : ∀ d ∈ st.results, TitleOK d) :
    ∀ d ∈ (stepLine st raw).results, TitleOK d := by
  intro d hd
  unfold stepLine at hd
  dsimp only at hd
  repeat' split at hd
  all_goals try simp only [stepNumbered_results, stepBold_results, stepTitleLabel_results,
    stepBareUrl_results, stepUrlLabel_results, stepImageLabel_results,
    stepDescLabel_results, stepWhy_results, stepAdditional_results,
    stepCont_results] at hd
  all_goals first
    | exact h d hd
    | exact flushCur_titles st h d hd

theorem scanLines_titles (content : List Char) :
    ∀ d ∈ scanLines content, TitleOK d := by
  have hfold : ∀ (lines : List (List Char)) (st : ScanSt),
      (∀ d ∈ st.results, TitleOK d) →
      ∀ d ∈ (lines.foldl stepLine st).results, TitleOK d := by
    intro lines
    induction lines with
    | nil => intro st h; exact h
    | cons l rest ih =>
      intro st h
      exact ih _ (stepLine_titles st l h)
  intro d hd
  unfold scanLines at hd
  exact flushCur_titles _ (hfold _ ⟨[], [], none⟩ (by simp)) d hd

theorem numberedFallback_titles (pairs : List (List Char × List Char)) :
    ∀ d ∈ numberedFallback pairs, TitleOK d := by
  unfold numberedFallback
  have hfold : ∀ (ps : List (List Char × List Char)) (acc : List Dict),
      (∀ d ∈ acc, TitleOK d) →
      ∀ d ∈ ps.foldl (fun acc p =>
          let fb := sectionRecord p.2
          if truthyO (dget fb ("title".toList)) then acc ++ [fb] else acc) acc,
        TitleOK d := by
    intro ps
    induction ps with
    | nil => intro acc h; exact h
    | cons p rest ih =>
      intro acc h
      apply ih
      intro d hd
      dsimp only at hd
      split at hd
      · rcases List.mem_append.1 hd with h1 | h1
        · exact h d h1
        · have h3 : d = sectionRecord p.2 := by simpa using h1
          subst h3
          assumption
      · exact h d hd
  exact hfold pairs [] (by simp)

theorem boldSearch_ne (l b : List Char) (h : boldSearch l = some b) : b ≠ [] := by
  induction l with
  | nil => simp [boldSearch] at h
  | cons c rest ih =>
    unfold boldSearch at h
    split at h
    · split at h
      · dsimp only at h
        split at h
        · rename_i hguard
          injection h with h2
          subst h2
          exact hguard.1
        · exact ih h
      · exact ih h
    · exact ih h

theorem singleFallback_titles (content : List Char) (urls : List (List Char)) :
    ∀ d ∈ singleFallback content urls, TitleOK d := by
  intro d hd
  unfold singleFallback at hd
  dsimp only at hd
  rw [List.mem_singleton] at hd
  subst hd
  unfold TitleOK
  rw [dget_dset_ne _ _ _ _ (by decide), dget_dset_ne _ _ _ _ (by decide),
      dget_dset_ne _ _ _ _ (by decide), dget_dset_self]
  cases hb : boldSearch content with
  | some b =>
    simp only [hb, truthyO, truthy]
    simpa using boldSearch_ne content b hb
  | none => simp [hb, truthyO, truthy]

theorem backfillGo_titles (urls : List (List Char)) (rs : List Dict) (i : Nat)
    (h : ∀ d ∈ rs, TitleOK d) : ∀ d ∈ backfillGo urls rs i, TitleOK d := by
  induction rs generalizing i with
  | nil => simp [backfillGo]
  | cons r rest ih =>
    intro d hd
    unfold backfillGo at hd
    split at hd
    · rcases List.mem_cons.1 hd with h1 | h1
      · subst h1
        unfold TitleOK
        rw [dget_dset_ne _ _ _ _ (by decide)]
        exact h r (by simp)
      · exact ih (i + 1) (fun x hx => h x (by simp [hx])) d h1
    · rcases List.mem_cons.1 hd with h1 | h1
      · subst h1
        exact h _ (by simp)
      · exact ih i (fun x hx => h x (by simp [hx])) d h1

theorem parseTextCore_titles (content : List Char) :
    ∀ d ∈ parseTextCore content, TitleOK d := by
  intro d hd
  unfold parseTextCore at hd
  dsimp only at hd
  split at hd
  · split at hd
    · exact numberedFallback_titles _ d hd
    · exact singleFallback_titles _ _ d hd
  · exact scanLines_titles content d hd

theorem parseTextPipeline_titles (content : List Char) :
    ∀ d ∈ parseTextPipeline content, TitleOK d := by
  intro d hd
  unfold parseTextPipeline at hd
  dsimp only at hd
  split at hd
  · exact backfillGo_titles _ _ _ (parseTextCore_titles content) d hd
  · exact parseTextCore_titles content d hd

/-- C1 counterexample: the embedded-JSON path returns the parsed records
as they are, so a reply whose JSON records lack titles yields an output
record with no title at all, refuting "every record in the final output
list has a non-empty title, regardless of which parsing path produced
it". -/
theorem C1_counterexample :
    parse_response ("\x7b\"results\":[\x7b\"url\":\"http://x\"\x7d]\x7d".toList) =
      .arr [.obj [("url".toList, .str ("http://x".toList))]] ∧
    dget [("url".toList, JVal.str ("http://x".toList))] ("title".toList) = none :=
  ⟨rfl, rfl⟩

/-- C1 amended: whenever the embedded-JSON attempt does not fire (the
labeled scan, numbered-section fallback and single-record fallback are
the paths that produce records), every record the parser returns is a
dictionary with a non-empty title. -/
theorem C1_titles_amended (content : List Char) (rs : List JVal)
    (hjson : jsonAttempt content = none)
    (hp : parse_response content = .arr rs) :
    ∀ r ∈ rs, ∃ d, r = .obj d ∧ truthyO (dget d ("title".toList)) = true := by
  by_cases hne : content = []
  · subst hne
    unfold parse_response at hp
    simp only [if_pos rfl] at hp
    injection hp with hp2
    subst hp2
    intro r hr
    simp at hr
  · unfold parse_response at hp
    rw [if_neg hne, hjson] at hp
    injection hp with hp2
    subst hp2
    intro r hr
    rw [List.mem_map] at hr
    obtain ⟨d, hd, rfl⟩ := hr
    exact ⟨d, rfl, parseTextPipeline_titles content d hd⟩

/-- Witness for C1 amended at a concrete labeled-scan reply. -/
theorem C1_titles_amended_witness :
    jsonAttempt ("1. Product: Shoe\nhttps://shoe.com".toList) = none ∧
    (∀ r ∈ [JVal.obj [("title".toList, JVal.str ("Shoe".toList)),
                      ("url".toList, JVal.str ("https://shoe.com".toList))]],
      ∃ d, r = .obj d ∧ truthyO (dget d ("title".toList)) = true) :=
  ⟨rfl, C1_titles_amended ("1. Product: Shoe\nhttps://shoe.com".toList)
    [JVal.obj [("title".toList, JVal.str ("Shoe".toList)),
               ("url".toList, JVal.str ("https://shoe.com".toList))]] rfl rfl⟩

/-! ## The final URL backfill as the spec words it (C2) -/

/-- Modelled from the spec: assign the pool of URLs collected from the raw
text, in order and without reuse, to records whose url field is still
unfilled, until either records or URLs are exhausted. -/
def assignUrlsSpec : List Dict → List (List Char) → List Dict
  | [], _ => []
  | r :: rs, [] => r :: rs
  | r :: rs, u :: us =>
    if truthyO (dget r ("url".toList)) then r :: assignUrlsSpec rs (u :: us)
    else dset r ("url".toList) (.str u) :: assignUrlsSpec rs us

theorem assignUrlsSpec_nilPool (rs : List Dict) : assignUrlsSpec rs [] = rs := by
  cases rs <;> rfl

theorem getD_headD_drop (urls : List (List Char)) (i : Nat) :
    urls.getD i [] = (urls.drop i).headD [] := by
  induction urls generalizing i with
  | nil => simp
  | cons u us ih => cases i <;> simp [ih]

theorem backfillGo_eq_spec (urls : List (List Char)) (rs : List Dict) (i : Nat) :
    backfillGo urls rs i = assignUrlsSpec rs (urls.drop i) := by
  induction rs generalizing i with
  | nil => cases h : urls.drop i <;> simp [backfillGo, assignUrlsSpec]
  | cons r rest ih =>
    by_cases ht : truthyO (dget r ("url".toList)) = true
    · have hcond : ¬ (¬ truthyO (dget r ("url".toList)) = true ∧ i < urls.length) :=
        fun hcontra => hcontra.1 ht
      rw [backfillGo, if_neg hcond]
      cases hdrop : urls.drop i with
      | nil =>
        rw [assignUrlsSpec, ih, hdrop, assignUrlsSpec_nilPool]
      | cons u us =>
        rw [ih, hdrop, assignUrlsSpec, if_pos ht]
    · by_cases hlen : i < urls.length
      · cases hdrop : urls.drop i with
        | nil =>
          have := congrArg List.length hdrop
          rw [List.length_drop] at this
          simp at this
          omega
        | cons u us =>
          have hu : urls.getD i [] = u := by
            rw [getD_headD_drop, hdrop]
            rfl
          have hus : urls.drop (i + 1) = us := by
            have h2 : urls.drop (i + 1) = (urls.drop i).drop 1 := by
              rw [List.drop_drop]
            rw [h2, hdrop]
            rfl
          rw [backfillGo, if_pos ⟨ht, hlen⟩, hu, ih, hus,
            assignUrlsSpec, if_neg ht]
      · have hdrop : urls.drop i = [] := by
          apply List.drop_eq_nil_of_le
          omega
        rw [backfillGo, if_neg (fun hcontra => hlen hcontra.2), ih, hdrop,
          assignUrlsSpec_nilPool, assignUrlsSpec]

/-- C2 counterexample: when the embedded-JSON path produces the records,
the final URL backfill never runs — a URL present in the raw text is not
assigned to a record left without one, refuting "regardless of which
path produced the records". -/
theorem C2_counterexample :
    parse_response ("See http://a.com \x7b\"results\":[\x7b\"title\":\"A\"\x7d]\x7d".toList) =
      .arr [.obj [("title".toList, .str ("A".toList))]] ∧
    findUrls ("See http://a.com \x7b\"results\":[\x7b\"title\":\"A\"\x7d]\x7d".toList) =
      ["http://a.com".toList] ∧
    dget [("title".toList, JVal.str ("A".toList))] ("url".toList) = none :=
  ⟨rfl, rfl, rfl⟩

/-- C2 amended: for every reply where the embedded-JSON attempt does not
fire, the parser's final output is exactly the pre-backfill record list
with every URL of the raw text assigned, in order and without reuse, to
records whose url is still unfilled, until either runs out. -/
theorem C2_backfill_amended (content : List Char) (hne : content ≠ [])
    (hjson : jsonAttempt content = none) :
    parse_response content =
      .arr ((assignUrlsSpec (parseTextCore content) (findUrls content)).map JVal.obj) := by
  unfold parse_response
  rw [if_neg hne, hjson]
  congr 1
  congr 1
  unfold parseTextPipeline
  dsimp only
  split
  · rw [backfillGo_eq_spec, List.drop_zero]
  · rename_i hcond
    by_cases hcore : parseTextCore content = []
    · rw [hcore]
      cases findUrls content <;> rfl
    · have hurls : findUrls content = [] := by
        by_contra hfu
        apply hcond
        simp [List.isEmpty_iff, hcore, hfu]
      rw [hurls, assignUrlsSpec_nilPool]

/-- Witness for C2 amended at a concrete reply: the pool URL is assigned
to the first record, which lacked one. -/
theorem C2_backfill_amended_witness :
    ("1. Product: Shoe\n2. Product: Hat\nhttps://shoe.com".toList ≠ []) ∧
    parse_response ("1. Product: Shoe\n2. Product: Hat\nhttps://shoe.com".toList) =
      .arr ((assignUrlsSpec
        (parseTextCore ("1. Product: Shoe\n2. Product: Hat\nhttps://shoe.com".toList))
        (findUrls ("1. Product: Shoe\n2. Product: Hat\nhttps://shoe.com".toList))).map JVal.obj) :=
  ⟨by simp, C2_backfill_amended ("1. Product: Shoe\n2. Product: Hat\nhttps://shoe.com".toList)
    (by simp) rfl⟩

/-! ## Equivalence of the fusion loop with its spec description (C7) -/

theorem findEnt_eq_filter (q : Dict → Bool) (used : List Nat) :
    ∀ (l : List Dict) (k : Nat),
      findEnt (fun i e => !used.contains i && q e) k l =
      ((List.enumFrom k l).filter (fun ie => !used.contains ie.1)).find?
        (fun ie => q ie.2) := by
  intro l
  induction l with
  | nil => intro k; rfl
  | cons e rest ih =>
    intro k
    rw [findEnt]
    simp only [List.enumFrom]
    by_cases hu : k ∈ used
    · rw [if_neg (show ¬ (!used.contains k && q e) = true by simp [hu]),
        List.filter_cons, if_neg (by simp [hu])]
      exact ih (k + 1)
    · by_cases hq : q e = true
      · rw [if_pos (show (!used.contains k && q e) = true by simp [hu, hq]),
          List.filter_cons, if_pos (by simp [hu]),
          List.find?_cons_of_pos _ (by simpa using hq)]
      · rw [if_neg (show ¬ (!used.contains k && q e) = true by simp [hq]),
          List.filter_cons, if_pos (by simp [hu]),
          List.find?_cons_of_neg _ (by simpa using hq)]
        exact ih (k + 1)

theorem findEnt_unused_eq (used : List Nat) :
    ∀ (l : List Dict) (k : Nat),
      findEnt (fun i _ => !used.contains i) k l =
      ((List.enumFrom k l).filter (fun ie => !used.contains ie.1)).head? := by
  intro l
  induction l with
  | nil => intro k; rfl
  | cons e rest ih =>
    intro k
    rw [findEnt]
    simp only [List.enumFrom]
    by_cases hu : k ∈ used
    · rw [if_neg (show ¬ (!used.contains k) = true by simp [hu]),
        List.filter_cons, if_neg (by simp [hu])]
      exact ih (k + 1)
    · rw [if_pos (show (!used.contains k) = true by simp [hu]),
        List.filter_cons, if_pos (by simp [hu])]
      rfl

theorem filter_unused_cons (i : Nat) (used : List Nat) (l : List (Nat × Dict)) :
    (l.filter (fun ie => !used.contains ie.1)).filter
        (fun je : Nat × Dict => decide (je.1 ≠ i)) =
    l.filter (fun ie => !(i :: used).contains ie.1) := by
  induction l with
  | nil => rfl
  | cons e rest ih =>
    by_cases h1 : e.1 ∈ used
    · rw [List.filter_cons, if_neg (by simp [h1]),
        List.filter_cons, if_neg (by simp [List.contains_cons, h1]), ih]
    · rw [List.filter_cons, if_pos (by simp [h1]), List.filter_cons]
      by_cases h2 : e.1 = i
      · rw [if_neg (by simp [h2]),
          List.filter_cons, if_neg (by simp [List.contains_cons, h2]), ih]
      · rw [if_pos (by simp [h2]),
          List.filter_cons, if_pos (by simp [List.contains_cons, h1, h2]), ih]

theorem findEnt_eq_filter0 (q : Dict → Bool) (used : List Nat) (l : List Dict) :
    findEnt (fun i e => !used.contains i && q e) 0 l =
    ((l.enum).filter (fun ie => !used.contains ie.1)).find? (fun ie => q ie.2) := by
  rw [findEnt_eq_filter]
  rfl

theorem findEnt_unused_eq0 (used : List Nat) (l : List Dict) :
    findEnt (fun i _ => !used.contains i) 0 l =
    ((l.enum).filter (fun ie => !used.contains ie.1)).head? := by
  rw [findEnt_unused_eq]
  rfl

theorem fuseGo_eq_spec (exa : List Dict) :
    ∀ (recs : List Dict) (used : List Nat),
      (fuseGo exa recs used).1 =
      fuseSpecGo recs ((exa.enum).filter (fun ie => !used.contains ie.1)) := by
  intro recs
  induction recs with
  | nil => intro used; rfl
  | cons rec rs ih =>
    intro used
    rw [fuseGo, fuseSpecGo]
    dsimp only
    rw [findEnt_eq_filter0]
    cases hp1 : (if missingUI rec = true then
        ((exa.enum).filter (fun ie => !used.contains ie.1)).find?
          (fun ie => titlesMatch (lowerL (asTextD (dget rec ("title".toList))))
            (asTextD (dget ie.2 ("title".toList))))
      else none) with
    | none =>
      dsimp only
      by_cases hm : missingUI rec = true
      · rw [if_pos hm, if_pos hm, findEnt_unused_eq0]
        cases hav : (exa.enum).filter (fun ie => !used.contains ie.1) with
        | nil =>
          dsimp only [List.head?]
          rw [ih used, hav]
        | cons a rest2 =>
          dsimp only [List.head?]
          rw [ih (a.1 :: used), ← filter_unused_cons, hav]
      · rw [if_neg hm, if_neg hm]
        dsimp only
        rw [ih used]
    | some ie =>
      dsimp only
      by_cases hm : missingUI (fillFrom rec ie.2) = true
      · rw [if_pos hm, if_pos hm, findEnt_unused_eq0, ← filter_unused_cons]
        cases hav : ((exa.enum).filter
            (fun ie2 => !used.contains ie2.1)).filter
            (fun je : Nat × Dict => decide (je.1 ≠ ie.1)) with
        | nil =>
          dsimp only [List.head?]
          rw [ih (ie.1 :: used), ← filter_unused_cons, hav]
        | cons a rest2 =>
          dsimp only [List.head?]
          rw [ih (a.1 :: ie.1 :: used), ← filter_unused_cons, ← filter_unused_cons, hav]
      · rw [if_neg hm, if_neg hm]
        dsimp only
        rw [ih (ie.1 :: used), ← filter_unused_cons]

/-- C7 amended: the fusion loop behaves exactly as the spec's two passes
describe, with the pass-2 trigger amended to "fields remain missing after
pass 1" (whether or not pass 1 found a match). -/
theorem C7_fusion_amended (recs exa : List Dict) :
    fuseResults recs exa = fuseSpec recs exa := by
  rw [fuseResults, fuseSpec, fuseGo_eq_spec]
  congr 1
  rw [List.filter_eq_self]
  intro a _
  simp

/-- C7 counterexample: a record whose pass-1 match fills nothing still
receives a pass-2 fallback entry, refuting "pass 2 runs only if pass 1
found no match": the code assigns `http://b` while the claim's
description of pass 2 leaves the record without a URL. -/
theorem C7_counterexample :
    dget ((fuseResults [[("title".toList, JVal.str ("alpha".toList))]]
        [[("title".toList, JVal.str ("alpha".toList))],
         [("title".toList, JVal.str ("zzz".toList)),
          ("url".toList, JVal.str ("http://b".toList))]]).headD [])
      ("url".toList) = some (.str ("http://b".toList)) ∧
    dget ((fuseSpecClaim [[("title".toList, JVal.str ("alpha".toList))]]
        [[("title".toList, JVal.str ("alpha".toList))],
         [("title".toList, JVal.str ("zzz".toList)),
          ("url".toList, JVal.str ("http://b".toList))]]).headD [])
      ("url".toList) = none :=
  ⟨rfl, rfl⟩

/-! ## Frame properties of the fuser (C8) -/

/-- The fuser's frame relation: fields with non-empty (truthy) values are
unchanged, and fields other than url/image_url/description/highlights
are untouched. -/
def frameOK (r r2 : Dict) : Prop :=
  (∀ k, truthyO (dget r k) = true → dget r2 k = dget r k) ∧
  (∀ k, k ≠ "url".toList → k ≠ "image_url".toList → k ≠ "description".toList →
    k ≠ "highlights".toList → dget r2 k = dget r k)

theorem frameOK_refl (r : Dict) : frameOK r r :=
  ⟨fun _ _ => rfl, fun _ _ _ _ _ => rfl⟩

theorem frameOK_trans (a b c : Dict) (h1 : frameOK a b) (h2 : frameOK b c) :
    frameOK a c := by
  constructor
  · intro k hk
    have hb := h1.1 k hk
    have hb2 : truthyO (dget b k) = true := by rw [hb]; exact hk
    rw [h2.1 k hb2, hb]
  · intro k h3 h4 h5 h6
    rw [h2.2 k h3 h4 h5 h6, h1.2 k h3 h4 h5 h6]

theorem dset_frame (r : Dict) (k : List Char) (v : JVal)
    (hk : k = "url".toList ∨ k = "image_url".toList ∨ k = "description".toList ∨
      k = "highlights".toList)
    (hmiss : truthyO (dget r k) = false) : frameOK r (dset r k v) := by
  constructor
  · intro k2 hk2
    by_cases he : k = k2
    · subst he
      rw [hk2] at hmiss
      cases hmiss
    · exact dget_dset_ne _ _ _ _ he
  · intro k2 h3 h4 h5 h6
    have hne : k ≠ k2 := by
      rcases hk with rfl | rfl | rfl | rfl
      · exact fun he => h3 he.symm
      · exact fun he => h4 he.symm
      · exact fun he => h5 he.symm
      · exact fun he => h6 he.symm
    exact dget_dset_ne _ _ _ _ hne

theorem fillUrl_frame (r e : Dict) : frameOK r (fillUrl r e) := by
  unfold fillUrl
  split
  · rename_i hguard
    rw [Bool.and_eq_true] at hguard
    exact dset_frame r _ _ (Or.inl rfl) (by simpa using hguard.1)
  · exact frameOK_refl r

theorem fillImage_frame (r e : Dict) : frameOK r (fillImage r e) := by
  unfold fillImage
  split
  · rename_i hguard
    rw [Bool.and_eq_true] at hguard
    exact dset_frame r _ _ (Or.inr (Or.inl rfl)) (by simpa using hguard.1)
  · exact frameOK_refl r

theorem fillDescr_frame (r e : Dict) : frameOK r (fillDescr r e) := by
  unfold fillDescr
  split
  · rename_i hguard
    split
    · split
      · exact frameOK_refl r
      · exact dset_frame r _ _ (Or.inr (Or.inr (Or.inl rfl))) (by simpa using hguard)
    · exact frameOK_refl r
  · exact frameOK_refl r

theorem fillHighl_frame (r e : Dict) : frameOK r (fillHighl r e) := by
  unfold fillHighl
  split
  · rename_i hguard
    split
    · exact dset_frame r _ _ (Or.inr (Or.inr (Or.inr rfl))) (by simpa using hguard)
    · exact frameOK_refl r
  · exact frameOK_refl r

theorem fillFrom_frame (r e : Dict) : frameOK r (fillFrom r e) := by
  unfold fillFrom
  exact frameOK_trans _ _ _
    (frameOK_trans _ _ _
      (frameOK_trans _ _ _ (fillUrl_frame r e) (fillImage_frame _ e))
      (fillDescr_frame _ e))
    (fillHighl_frame _ e)

theorem fuseGo_frame (exa : List Dict) :
    ∀ (recs : List Dict) (used : List Nat),
      List.Forall₂ frameOK recs (fuseGo exa recs used).1 := by
  intro recs
  induction recs with
  | nil => intro used; exact List.Forall₂.nil
  | cons rec rs ih =>
    intro used
    rw [fuseGo]
    dsimp only
    cases hp1 : (if missingUI rec = true then
        findEnt (fun i e => !used.contains i &&
          titlesMatch (lowerL (asTextD (dget rec ("title".toList))))
            (asTextD (dget e ("title".toList)))) 0 exa
      else none) with
    | none =>
      dsimp only
      split
      · cases hp2 : findEnt (fun i _ => !used.contains i) 0 exa with
        | none => exact List.Forall₂.cons (frameOK_refl rec) (ih _)
        | some je => exact List.Forall₂.cons (fillFrom_frame rec je.2) (ih _)
      · exact List.Forall₂.cons (frameOK_refl rec) (ih _)
    | some ie =>
      dsimp only
      split
      · cases hp2 : findEnt (fun i _ => !(ie.1 :: used).contains i) 0 exa with
        | none => exact List.Forall₂.cons (fillFrom_frame rec ie.2) (ih _)
        | some je =>
          exact List.Forall₂.cons
            (frameOK_trans _ _ _ (fillFrom_frame rec ie.2) (fillFrom_frame _ je.2))
            (ih _)
      · exact List.Forall₂.cons (fillFrom_frame rec ie.2) (ih _)

theorem findEnt_pred (p : Nat → Dict → Bool) :
    ∀ (l : List Dict) (k i : Nat) (e : Dict),
      findEnt p k l = some (i, e) → p i e = true := by
  intro l
  induction l with
  | nil => intro k i e h; cases h
  | cons e2 rest ih =>
    intro k i e h
    rw [findEnt] at h
    split at h
    · injection h with h2
      rename_i hp
      rw [Prod.mk.injEq] at h2
      obtain ⟨rfl, rfl⟩ := h2
      exact hp
    · exact ih (k + 1) i e h

theorem fuseGo_used_nodup (exa : List Dict) :
    ∀ (recs : List Dict) (used : List Nat),
      used.Nodup → (fuseGo exa recs used).2.Nodup := by
  intro recs
  induction recs with
  | nil => intro used h; exact h
  | cons rec rs ih =>
    intro used hnd
    rw [fuseGo]
    dsimp only
    apply ih
    cases hp1 : (if missingUI rec = true then
        findEnt (fun i e => !used.contains i &&
          titlesMatch (lowerL (asTextD (dget rec ("title".toList))))
            (asTextD (dget e ("title".toList)))) 0 exa
      else none) with
    | none =>
      dsimp only
      split
      · cases hp2 : findEnt (fun i _ => !used.contains i) 0 exa with
        | none => exact hnd
        | some je =>
          dsimp only
          rw [List.nodup_cons]
          refine ⟨?_, hnd⟩
          have hp := findEnt_pred _ exa 0 je.1 je.2 hp2
          simpa using hp
      · exact hnd
    | some ie =>
      have hie : (ie.1 : Nat) ∉ used := by
        split at hp1
        · have hp := findEnt_pred _ exa 0 ie.1 ie.2 hp1
          rw [Bool.and_eq_true] at hp
          simpa using hp.1
        · cases hp1
      dsimp only
      split
      · cases hp2 : findEnt (fun i _ => !(ie.1 :: used).contains i) 0 exa with
        | none =>
          dsimp only
          rw [List.nodup_cons]
          exact ⟨hie, hnd⟩
        | some je =>
          dsimp only
          rw [List.nodup_cons]
          have hp := findEnt_pred _ exa 0 je.1 je.2 hp2
          refine ⟨by simpa using hp, ?_⟩
          rw [List.nodup_cons]
          exact ⟨hie, hnd⟩
      · dsimp only
        rw [List.nodup_cons]
        exact ⟨hie, hnd⟩

/-- C8 amended: fusion never adds, drops or reorders records — the output
list is pointwise frame-related to the input list — it never changes a
field that holds a non-empty value, it touches only the
url/image_url/description/highlights fields, and each secondary entry is
consumed (marked used) at most once.  A present-but-empty field, however,
counts as absent and may be filled. -/
theorem C8_fusion_frame (recs exa : List Dict) :
    List.Forall₂ frameOK recs (fuseResults recs exa) ∧
    (fuseResults recs exa).length = recs.length ∧
    (fuseGo exa recs []).2.Nodup := by
  refine ⟨fuseGo_frame exa recs [], ?_,
    fuseGo_used_nodup exa recs [] List.nodup_nil⟩
  exact ((fuseGo_frame exa recs []).length_eq).symm

/-- C8 counterexample: a record with a present-but-empty url field has it
overwritten during fusion, refuting "never overwrites a field that is
already present". -/
theorem C8_counterexample :
    hasKey [("title".toList, JVal.str ("A".toList)), ("url".toList, JVal.str [])]
      ("url".toList) = true ∧
    dget ((fuseResults
        [[("title".toList, JVal.str ("A".toList)), ("url".toList, JVal.str [])]]
        [[("title".toList, JVal.str ("zzz".toList)),
          ("url".toList, JVal.str ("http://b".toList))]]).headD [])
      ("url".toList) = some (.str ("http://b".toList)) :=
  ⟨rfl, rfl⟩

/-! ## Idempotence analysis of the snippet cleaner (C9) -/

/-- No literal backslash-n pair anywhere. -/
def noBsn : List Char → Bool
  | [] => true
  | [_] => true
  | a :: b :: rest => !(a = '\\' && b = 'n') && noBsn (b :: rest)

/-- Every whitespace character is a plain space. -/
def wsOnlySp (l : List Char) : Bool := l.all (fun c => !isWsC c || c = ' ')

/-- No two adjacent whitespace characters. -/
def noDblSp : List Char → Bool
  | [] => true
  | [_] => true
  | a :: b :: rest => !(isWsC a && isWsC b) && noDblSp (b :: rest)

/-- The first character, when present, is not whitespace. -/
def headNW : List Char → Bool
  | [] => true
  | c :: _ => !isWsC c

/-- The last character, when present, is not whitespace. -/
def lastNW (l : List Char) : Bool := headNW l.reverse

theorem noBsn_tail (a : Char) (l : List Char) (h : noBsn (a :: l) = true) :
    noBsn l = true := by
  cases l with
  | nil => rfl
  | cons b rest =>
    rw [noBsn, Bool.and_eq_true] at h
    exact h.2

theorem noDblSp_tail (a : Char) (l : List Char) (h : noDblSp (a :: l) = true) :
    noDblSp l = true := by
  cases l with
  | nil => rfl
  | cons b rest =>
    rw [noDblSp, Bool.and_eq_true] at h
    exact h.2

theorem noBsn_take (l : List Char) (h : noBsn l = true) (n : Nat) :
    noBsn (l.take n) = true := by
  induction l generalizing n with
  | nil => simp [List.take_nil]; rfl
  | cons a rest ih =>
    cases n with
    | zero => rfl
    | succ n =>
      rw [List.take_succ_cons]
      cases hr : rest.take n with
      | nil => rfl
      | cons b r2 =>
        rw [noBsn, Bool.and_eq_true]
        have h2 := ih (noBsn_tail a rest h) n
        rw [hr] at h2
        refine ⟨?_, h2⟩
        cases rest with
        | nil => cases n <;> simp [List.take_nil] at hr
        | cons b2 r3 =>
          have hb : b2 = b := by
            cases n with
            | zero => simp [List.take_nil] at hr
            | succ n2 =>
              rw [List.take_succ_cons] at hr
              exact (List.cons_eq_cons.mp hr).1
          rw [noBsn, Bool.and_eq_true] at h
          rw [← hb]
          exact h.1

theorem noDblSp_take (l : List Char) (h : noDblSp l = true) (n : Nat) :
    noDblSp (l.take n) = true := by
  induction l generalizing n with
  | nil => simp [List.take_nil]; rfl
  | cons a rest ih =>
    cases n with
    | zero => rfl
    | succ n =>
      rw [List.take_succ_cons]
      cases hr : rest.take n with
      | nil => rfl
      | cons b r2 =>
        rw [noDblSp, Bool.and_eq_true]
        have h2 := ih (noDblSp_tail a rest h) n
        rw [hr] at h2
        refine ⟨?_, h2⟩
        cases rest with
        | nil => cases n <;> simp [List.take_nil] at hr
        | cons b2 r3 =>
          have hb : b2 = b := by
            cases n with
            | zero => simp [List.take_nil] at hr
            | succ n2 =>
              rw [List.take_succ_cons] at hr
              exact (List.cons_eq_cons.mp hr).1
          rw [noDblSp, Bool.and_eq_true] at h
          rw [← hb]
          exact h.1

theorem noBsn_suffixClosed (l : List Char) (h : noBsn l = true) :
    ∀ l2, l2 <:+ l → noBsn l2 = true := by
  induction l with
  | nil =>
    intro l2 h2
    rw [List.suffix_nil] at h2
    subst h2
    rfl
  | cons a rest ih =>
    intro l2 h2
    rcases h2 with ⟨pre, hpre⟩
    cases pre with
    | nil =>
      rw [List.nil_append] at hpre
      subst hpre
      exact h
    | cons p ps =>
      injection hpre with h3 h4
      exact ih (noBsn_tail a rest h) l2 ⟨ps, h4⟩

theorem noDblSp_suffixClosed (l : List Char) (h : noDblSp l = true) :
    ∀ l2, l2 <:+ l → noDblSp l2 = true := by
  induction l with
  | nil =>
    intro l2 h2
    rw [List.suffix_nil] at h2
    subst h2
    rfl
  | cons a rest ih =>
    intro l2 h2
    rcases h2 with ⟨pre, hpre⟩
    cases pre with
    | nil =>
      rw [List.nil_append] at hpre
      subst hpre
      exact h
    | cons p ps =>
      injection hpre with h3 h4
      exact ih (noDblSp_tail a rest h) l2 ⟨ps, h4⟩

theorem headNW_head (l : List Char) (d : Char) (h : headNW l = true)
    (h2 : l.head? = some d) : isWsC d = false := by
  cases l with
  | nil => simp at h2
  | cons c rest =>
    injection h2 with h3
    subst h3
    rw [headNW, Bool.not_eq_eq_eq_not, Bool.not_true] at h
    exact h

theorem headNW_prefix (l l2 : List Char) (h2 : l2 <+: l)
    (h : headNW l = true) : headNW l2 = true := by
  cases l2 with
  | nil => rfl
  | cons c rest =>
    rcases h2 with ⟨suf, hsuf⟩
    rw [List.cons_append] at hsuf
    rw [← hsuf] at h
    exact h

theorem headNW_dropWhile (l : List Char) :
    headNW (l.dropWhile isWsC) = true := by
  induction l with
  | nil => rfl
  | cons c rest ih =>
    by_cases h : isWsC c = true
    · rw [List.dropWhile_cons_of_pos h]
      exact ih
    · rw [List.dropWhile_cons_of_neg h]
      rw [headNW, Bool.not_eq_eq_eq_not, Bool.not_true]
      exact Bool.eq_false_iff.mpr h

theorem dropWhile_id_of_headNW (l : List Char) (h : headNW l = true) :
    l.dropWhile isWsC = l := by
  cases l with
  | nil => rfl
  | cons c rest =>
    rw [headNW, Bool.not_eq_eq_eq_not, Bool.not_true] at h
    rw [List.dropWhile_cons_of_neg (by rw [h]; exact Bool.false_ne_true)]

theorem headNW_append_one (x : List Char) (c : Char) (h : headNW x = true)
    (hc : isWsC c = false) : headNW (x ++ [c]) = true := by
  cases x with
  | nil =>
    rw [List.nil_append, headNW, hc]
    rfl
  | cons a rest =>
    rw [List.cons_append]
    exact h

theorem lastNW_append_one (x : List Char) (c : Char) (hc : isWsC c = false) :
    lastNW (x ++ [c]) = true := by
  rw [lastNW, List.reverse_append, List.reverse_singleton, List.singleton_append,
    headNW, hc]
  rfl

theorem noBsn_prefixClosed (l : List Char) (h : noBsn l = true)
    (l2 : List Char) (h2 : l2 <+: l) : noBsn l2 = true := by
  rw [List.prefix_iff_eq_take] at h2
  rw [h2]
  exact noBsn_take l h _

theorem noDblSp_prefixClosed (l : List Char) (h : noDblSp l = true)
    (l2 : List Char) (h2 : l2 <+: l) : noDblSp l2 = true := by
  rw [List.prefix_iff_eq_take] at h2
  rw [h2]
  exact noDblSp_take l h _

theorem noBsn_infixClosed (l l2 : List Char) (h : noBsn l = true)
    (h2 : l2 <:+: l) : noBsn l2 = true := by
  rcases h2 with ⟨u, v, huv⟩
  have hsuf : l2 ++ v <:+ l := ⟨u, by rw [← huv, List.append_assoc]⟩
  have h3 := noBsn_suffixClosed l h (l2 ++ v) hsuf
  exact noBsn_prefixClosed (l2 ++ v) h3 l2 ⟨v, rfl⟩

theorem noDblSp_infixClosed (l l2 : List Char) (h : noDblSp l = true)
    (h2 : l2 <:+: l) : noDblSp l2 = true := by
  rcases h2 with ⟨u, v, huv⟩
  have hsuf : l2 ++ v <:+ l := ⟨u, by rw [← huv, List.append_assoc]⟩
  have h3 := noDblSp_suffixClosed l h (l2 ++ v) hsuf
  exact noDblSp_prefixClosed (l2 ++ v) h3 l2 ⟨v, rfl⟩

theorem noBsn_cons_of (c : Char) (l : List Char)
    (h1 : ∀ d, l.head? = some d → (c = '\\' && d = 'n') = false)
    (h2 : noBsn l = true) : noBsn (c :: l) = true := by
  cases l with
  | nil => rfl
  | cons b rest =>
    rw [noBsn, Bool.and_eq_true]
    exact ⟨by rw [Bool.not_eq_eq_eq_not, Bool.not_true]; exact h1 b rfl, h2⟩

theorem noDblSp_cons_of (c : Char) (l : List Char)
    (h1 : ∀ d, l.head? = some d → (isWsC c && isWsC d) = false)
    (h2 : noDblSp l = true) : noDblSp (c :: l) = true := by
  cases l with
  | nil => rfl
  | cons b rest =>
    rw [noDblSp, Bool.and_eq_true]
    exact ⟨by rw [Bool.not_eq_eq_eq_not, Bool.not_true]; exact h1 b rfl, h2⟩

theorem noBsn_append_one (x : List Char) (c : Char) (h : noBsn x = true)
    (hc : ¬ c = 'n') : noBsn (x ++ [c]) = true := by
  induction x with
  | nil => rfl
  | cons a rest ih =>
    rw [List.cons_append]
    refine noBsn_cons_of a (rest ++ [c]) ?_ (ih (noBsn_tail a rest h))
    intro d hd
    cases rest with
    | nil =>
      rw [List.nil_append] at hd
      injection hd with hd2
      subst hd2
      simp [hc]
    | cons b r2 =>
      rw [List.cons_append] at hd
      injection hd with hd2
      subst hd2
      rw [noBsn, Bool.and_eq_true, Bool.not_eq_eq_eq_not, Bool.not_true] at h
      exact h.1

theorem noDblSp_append_one (x : List Char) (c : Char) (h : noDblSp x = true)
    (hc : isWsC c = false) : noDblSp (x ++ [c]) = true := by
  induction x with
  | nil => rfl
  | cons a rest ih =>
    rw [List.cons_append]
    refine noDblSp_cons_of a (rest ++ [c]) ?_ (ih (noDblSp_tail a rest h))
    intro d hd
    cases rest with
    | nil =>
      rw [List.nil_append] at hd
      injection hd with hd2
      subst hd2
      rw [hc, Bool.and_false]
    | cons b r2 =>
      rw [List.cons_append] at hd
      injection hd with hd2
      subst hd2
      rw [noDblSp, Bool.and_eq_true, Bool.not_eq_eq_eq_not, Bool.not_true] at h
      exact h.1

theorem wsOnlySp_subset (l l2 : List Char) (hsub : ∀ c ∈ l2, c ∈ l)
    (h : wsOnlySp l = true) : wsOnlySp l2 = true := by
  rw [wsOnlySp, List.all_eq_true] at h ⊢
  exact fun c hc => h c (hsub c hc)

theorem wsOnlySp_append_one (x : List Char) (c : Char) (h : wsOnlySp x = true)
    (hc : isWsC c = false) : wsOnlySp (x ++ [c]) = true := by
  rw [wsOnlySp, List.all_eq_true] at h ⊢
  intro d hd
  rw [List.mem_append] at hd
  rcases hd with hd | hd
  · exact h d hd
  · rw [List.mem_singleton] at hd
    subst hd
    rw [hc]
    rfl

/-! ### Identity lemmas: each cleaning stage fixes an already-clean string -/

theorem subLinksF_id (fuel : Nat) (l : List Char)
    (h : ∀ c ∈ l, c ≠ '[') : subLinksF fuel l = l := by
  induction fuel generalizing l with
  | zero => rfl
  | succ fuel ih =>
    cases l with
    | nil => rfl
    | cons c rest =>
      rw [subLinksF, if_neg (by exact_mod_cast h c (by simp))]
      rw [ih rest (fun d hd => h d (by simp [hd]))]

theorem subHashGo_id (l : List Char) (h : ∀ c ∈ l, c ≠ '#') :
    subHashGo false l = l := by
  induction l with
  | nil => rfl
  | cons c rest ih =>
    rw [subHashGo, if_neg (by exact_mod_cast h c (by simp)),
      if_neg (by simp)]
    rw [ih (fun d hd => h d (by simp [hd]))]

theorem starRepl_id (l : List Char) (h : ∀ c ∈ l, c ≠ '*') :
    starRepl l = l := by
  induction l with
  | nil => rfl
  | cons c rest ih =>
    have h2 : starRepl rest = rest := ih (fun d hd => h d (by simp [hd]))
    rw [starRepl] at h2
    rw [starRepl, List.map_cons, if_neg (by exact_mod_cast h c (by simp)), h2]

theorem bsnRepl_id : (l : List Char) → noBsn l = true → bsnRepl l = l
  | [], _ => rfl
  | [_], _ => rfl
  | a :: b :: rest, h => by
    rw [noBsn, Bool.and_eq_true, Bool.not_eq_eq_eq_not, Bool.not_true] at h
    have hne : ¬(a = '\\' ∧ b = 'n') := by
      intro hc
      obtain ⟨hc1, hc2⟩ := hc
      subst hc1
      subst hc2
      simp at h
    rw [bsnRepl, if_neg hne, bsnRepl_id (b :: rest) h.2]

theorem collapseGo_id (l : List Char) : ∀ b, wsOnlySp l = true →
    noDblSp l = true → (b = true → headNW l = true) → collapseGo b l = l := by
  induction l with
  | nil => intro b _ _ _; rfl
  | cons c rest ih =>
    intro b h1 h2 h3
    by_cases hw : isWsC c = true
    · have hb : b = false := by
        cases b with
        | false => rfl
        | true =>
          have h4 := h3 rfl
          rw [headNW, hw] at h4
          exact absurd h4 (by decide)
      subst hb
      rw [collapseGo, if_pos hw, if_neg (by decide)]
      have hsp : c = ' ' := by
        rw [wsOnlySp, List.all_eq_true] at h1
        have h5 := h1 c (by simp)
        rw [hw] at h5
        simpa using h5
      rw [ih true (wsOnlySp_subset _ _ (fun d hd => by simp [hd]) h1)
        (noDblSp_tail c rest h2)
        (fun _ => by
          cases rest with
          | nil => rfl
          | cons d r2 =>
            rw [noDblSp, Bool.and_eq_true, Bool.not_eq_eq_eq_not,
              Bool.not_true, hw, Bool.true_and] at h2
            rw [headNW, h2.1]
            rfl)]
      rw [hsp]
    · rw [collapseGo, if_neg hw]
      rw [ih false (wsOnlySp_subset _ _ (fun d hd => by simp [hd]) h1)
        (noDblSp_tail c rest h2) (fun h5 => absurd h5 (by decide))]

theorem pyStrip_id (l : List Char) (h1 : headNW l = true)
    (h2 : lastNW l = true) : pyStrip l = l := by
  rw [pyStrip, stripP, dropWhile_id_of_headNW l h1,
    dropWhile_id_of_headNW l.reverse h2, List.reverse_reverse]

/-! ### Image lemmas: invariants every cleaning stage establishes -/

theorem subHashGo_noHash (l : List Char) : ∀ b, '#' ∉ subHashGo b l := by
  induction l with
  | nil =>
    intro b
    rw [subHashGo]
    exact List.not_mem_nil '#'
  | cons c rest ih =>
    intro b
    rw [subHashGo]
    by_cases h1 : c = '#'
    · rw [if_pos h1]
      exact ih true
    · rw [if_neg h1]
      by_cases h2 : b = true ∧ isWsC c = true
      · rw [if_pos h2]
        exact ih true
      · rw [if_neg h2]
        intro hmem
        rcases List.mem_cons.mp hmem with h3 | h3
        · exact h1 h3.symm
        · exact ih false h3

theorem starRepl_mem (l : List Char) (d : Char) (hd : d ∈ starRepl l) :
    d = ' ' ∨ d ∈ l := by
  rw [starRepl, List.mem_map] at hd
  rcases hd with ⟨c, hc, heq⟩
  by_cases h : c = '*'
  · rw [if_pos h] at heq
    left
    exact heq.symm
  · rw [if_neg h] at heq
    right
    rw [← heq]
    exact hc

theorem starRepl_noStar (l : List Char) : '*' ∉ starRepl l := by
  intro h
  rw [starRepl, List.mem_map] at h
  rcases h with ⟨c, _, heq⟩
  by_cases hc : c = '*'
  · rw [if_pos hc] at heq
    exact absurd heq (by decide)
  · rw [if_neg hc] at heq
    exact hc heq

theorem bsnRepl_mem : (l : List Char) → ∀ d ∈ bsnRepl l, d = ' ' ∨ d ∈ l
  | [] => by
    intro d hd
    simp only [bsnRepl] at hd
    exact absurd hd (List.not_mem_nil d)
  | [c] => by
    intro d hd
    simp only [bsnRepl] at hd
    right
    exact hd
  | a :: b :: rest => by
    intro d hd
    simp only [bsnRepl] at hd
    by_cases hp : a = '\\' ∧ b = 'n'
    · rw [if_pos hp] at hd
      rcases List.mem_cons.mp hd with h3 | h3
      · left
        exact h3
      · rcases bsnRepl_mem rest d h3 with h4 | h4
        · left
          exact h4
        · right
          simp [h4]
    · rw [if_neg hp] at hd
      rcases List.mem_cons.mp hd with h3 | h3
      · right
        simp [h3]
      · rcases bsnRepl_mem (b :: rest) d h3 with h4 | h4
        · left
          exact h4
        · right
          simp [List.mem_cons.mp h4]

theorem bsnRepl_head (b : Char) (rest : List Char) :
    (bsnRepl (b :: rest)).head? = some b ∨
    (bsnRepl (b :: rest)).head? = some ' ' := by
  cases rest with
  | nil =>
    left
    rfl
  | cons c r2 =>
    by_cases hp : b = '\\' ∧ c = 'n'
    · right
      simp only [bsnRepl, if_pos hp]
      rfl
    · left
      simp only [bsnRepl, if_neg hp]
      rfl

theorem bsnRepl_noBsn : (l : List Char) → noBsn (bsnRepl l) = true
  | [] => rfl
  | [_] => rfl
  | a :: b :: rest => by
    by_cases hp : a = '\\' ∧ b = 'n'
    · simp only [bsnRepl, if_pos hp]
      refine noBsn_cons_of ' ' (bsnRepl rest) ?_ (bsnRepl_noBsn rest)
      intro d _
      simp
    · simp only [bsnRepl, if_neg hp]
      refine noBsn_cons_of a (bsnRepl (b :: rest)) ?_ (bsnRepl_noBsn (b :: rest))
      intro d hd
      by_cases ha : a = '\\'
      · have hb : ¬ b = 'n' := fun hb => hp ⟨ha, hb⟩
        rcases bsnRepl_head b rest with h3 | h3
        · rw [hd] at h3
          injection h3 with h4
          subst h4
          simp [hb]
        · rw [hd] at h3
          injection h3 with h4
          subst h4
          simp
      · simp [ha]

theorem collapseGo_ws_is_space (l : List Char) :
    ∀ b d, d ∈ collapseGo b l → isWsC d = true → d = ' ' := by
  induction l with
  | nil =>
    intro b d hd _
    rw [collapseGo] at hd
    exact absurd hd (List.not_mem_nil d)
  | cons c rest ih =>
    intro b d hd hw
    rw [collapseGo] at hd
    by_cases hc : isWsC c = true
    · rw [if_pos hc] at hd
      by_cases hb : b = true
      · rw [if_pos hb] at hd
        exact ih true d hd hw
      · rw [if_neg hb] at hd
        rcases List.mem_cons.mp hd with h3 | h3
        · exact h3
        · exact ih true d h3 hw
    · rw [if_neg hc] at hd
      rcases List.mem_cons.mp hd with h3 | h3
      · subst h3
        exact absurd hw hc
      · exact ih false d h3 hw

theorem collapseGo_wsOnly (l : List Char) (b : Bool) :
    wsOnlySp (collapseGo b l) = true := by
  rw [wsOnlySp, List.all_eq_true]
  intro c hc
  by_cases hw : isWsC c = true
  · have h2 := collapseGo_ws_is_space l b c hc hw
    subst h2
    rfl
  · have h2 : isWsC c = false := Bool.eq_false_iff.mpr hw
    simp [h2]

theorem collapseGo_true_headNW (l : List Char) :
    headNW (collapseGo true l) = true := by
  induction l with
  | nil => rfl
  | cons c rest ih =>
    rw [collapseGo]
    by_cases hc : isWsC c = true
    · rw [if_pos hc, if_pos rfl]
      exact ih
    · rw [if_neg hc, headNW, Bool.not_eq_eq_eq_not, Bool.not_true]
      exact Bool.eq_false_iff.mpr hc

theorem collapseGo_noDbl (l : List Char) : ∀ b, noDblSp (collapseGo b l) = true := by
  induction l with
  | nil =>
    intro b
    rw [collapseGo]
    rfl
  | cons c rest ih =>
    intro b
    rw [collapseGo]
    by_cases hc : isWsC c = true
    · rw [if_pos hc]
      by_cases hb : b = true
      · rw [if_pos hb]
        exact ih true
      · rw [if_neg hb]
        refine noDblSp_cons_of ' ' (collapseGo true rest) ?_ (ih true)
        intro d hd
        rw [headNW_head _ d (collapseGo_true_headNW rest) hd, Bool.and_false]
    · rw [if_neg hc]
      refine noDblSp_cons_of c (collapseGo false rest) ?_ (ih false)
      intro d _
      rw [Bool.eq_false_iff.mpr hc, Bool.false_and]

theorem collapseGo_false_head (l : List Char) (d : Char)
    (hd : (collapseGo false l).head? = some d) (hw : isWsC d = false) :
    l.head? = some d := by
  cases l with
  | nil =>
    rw [collapseGo] at hd
    exact absurd hd (by simp)
  | cons c rest =>
    rw [collapseGo] at hd
    by_cases hc : isWsC c = true
    · rw [if_pos hc, if_neg (by decide)] at hd
      injection hd with h3
      rw [← h3] at hw
      exact absurd hw (by decide)
    · rw [if_neg hc] at hd
      injection hd with h3
      rw [h3]
      rfl

theorem collapseGo_noBsn (l : List Char) (h : noBsn l = true) :
    ∀ b, noBsn (collapseGo b l) = true := by
  induction l with
  | nil =>
    intro b
    rw [collapseGo]
    rfl
  | cons c rest ih =>
    intro b
    have ihr := ih (noBsn_tail c rest h)
    rw [collapseGo]
    by_cases hc : isWsC c = true
    · rw [if_pos hc]
      by_cases hb : b = true
      · rw [if_pos hb]
        exact ihr true
      · rw [if_neg hb]
        refine noBsn_cons_of ' ' (collapseGo true rest) ?_ (ihr true)
        intro d _
        simp
    · rw [if_neg hc]
      refine noBsn_cons_of c (collapseGo false rest) ?_ (ihr false)
      intro d hd
      by_cases hcb : c = '\\'
      · by_cases hdn : d = 'n'
        · subst hdn
          have h3 := collapseGo_false_head rest 'n' hd (by decide)
          cases rest with
          | nil => exact absurd h3 (by simp)
          | cons e r2 =>
            injection h3 with h4
            subst hcb
            subst h4
            rw [noBsn] at h
            simp at h
        · simp [hdn]
      · simp [hcb]

theorem pyStrip_prefix_dropWhile (l : List Char) :
    pyStrip l <+: l.dropWhile isWsC := by
  rw [pyStrip, stripP]
  rw [← List.reverse_suffix, List.reverse_reverse]
  exact List.dropWhile_suffix isWsC

theorem pyStrip_within (l : List Char) : pyStrip l <:+: l := by
  rcases pyStrip_prefix_dropWhile l with ⟨t, ht⟩
  rcases List.dropWhile_suffix (l := l) isWsC with ⟨u, hu⟩
  exact ⟨u, t, by rw [List.append_assoc, ht, hu]⟩

theorem pyStrip_headNW (l : List Char) : headNW (pyStrip l) = true :=
  headNW_prefix _ _ (pyStrip_prefix_dropWhile l) (headNW_dropWhile l)

theorem pyStrip_lastNW (l : List Char) : lastNW (pyStrip l) = true := by
  rw [lastNW, pyStrip, stripP, List.reverse_reverse]
  exact headNW_dropWhile _

theorem pyStrip_idem (l : List Char) : pyStrip (pyStrip l) = pyStrip l :=
  pyStrip_id _ (pyStrip_headNW l) (pyStrip_lastNW l)

theorem collapseGo_mem (l : List Char) :
    ∀ b d, d ∈ collapseGo b l → d = ' ' ∨ d ∈ l := by
  induction l with
  | nil =>
    intro b d hd
    rw [collapseGo] at hd
    exact absurd hd (List.not_mem_nil d)
  | cons c rest ih =>
    intro b d hd
    rw [collapseGo] at hd
    by_cases hc : isWsC c = true
    · rw [if_pos hc] at hd
      by_cases hb : b = true
      · rw [if_pos hb] at hd
        rcases ih true d hd with h | h
        · left
          exact h
        · right
          simp [h]
      · rw [if_neg hb] at hd
        rcases List.mem_cons.mp hd with h | h
        · left
          exact h
        · rcases ih true d h with h2 | h2
          · left
            exact h2
          · right
            simp [h2]
    · rw [if_neg hc] at hd
      rcases List.mem_cons.mp hd with h | h
      · right
        simp [h]
      · rcases ih false d h with h2 | h2
        · left
          exact h2
        · right
          simp [h2]

/-- The full cleaning pipeline of `clean_exa_text` before the length cut. -/
def cleanPipe (l : List Char) : List Char :=
  pyStrip (collapseWs (bsnRepl (starRepl (subHash (subLinks l)))))

theorem cleanPipe_eq (l : List Char) :
    cleanPipe l = pyStrip (collapseWs (bsnRepl (starRepl (subHash (subLinks l))))) :=
  rfl

/-- The invariants every output of the cleaning pipeline satisfies: no
heading marker, no star, no literal backslash-n pair, all whitespace is a
single plain space, and no whitespace at either end. -/
def CleanInv (s : List Char) : Prop :=
  '#' ∉ s ∧ '*' ∉ s ∧ noBsn s = true ∧ wsOnlySp s = true ∧
  noDblSp s = true ∧ headNW s = true ∧ lastNW s = true

theorem cleanPipe_inv (t : List Char) : CleanInv (cleanPipe t) := by
  have hH2 : '#' ∉ subHash (subLinks t) := subHashGo_noHash _ false
  have hH3 : '#' ∉ starRepl (subHash (subLinks t)) := by
    intro hm
    rcases starRepl_mem _ _ hm with h | h
    · exact absurd h (by decide)
    · exact hH2 h
  have hS3 : '*' ∉ starRepl (subHash (subLinks t)) := starRepl_noStar _
  have hH4 : '#' ∉ bsnRepl (starRepl (subHash (subLinks t))) := by
    intro hm
    rcases bsnRepl_mem _ _ hm with h | h
    · exact absurd h (by decide)
    · exact hH3 h
  have hS4 : '*' ∉ bsnRepl (starRepl (subHash (subLinks t))) := by
    intro hm
    rcases bsnRepl_mem _ _ hm with h | h
    · exact absurd h (by decide)
    · exact hS3 h
  have hB4 : noBsn (bsnRepl (starRepl (subHash (subLinks t)))) = true :=
    bsnRepl_noBsn _
  have hH5 : '#' ∉ collapseWs (bsnRepl (starRepl (subHash (subLinks t)))) := by
    rw [collapseWs]
    intro hm
    rcases collapseGo_mem _ false _ hm with h | h
    · exact absurd h (by decide)
    · exact hH4 h
  have hS5 : '*' ∉ collapseWs (bsnRepl (starRepl (subHash (subLinks t)))) := by
    rw [collapseWs]
    intro hm
    rcases collapseGo_mem _ false _ hm with h | h
    · exact absurd h (by decide)
    · exact hS4 h
  have hB5 : noBsn (collapseWs (bsnRepl (starRepl (subHash (subLinks t))))) = true := by
    rw [collapseWs]
    exact collapseGo_noBsn _ hB4 false
  have hW5 : wsOnlySp (collapseWs (bsnRepl (starRepl (subHash (subLinks t))))) = true := by
    rw [collapseWs]
    exact collapseGo_wsOnly _ false
  have hD5 : noDblSp (collapseWs (bsnRepl (starRepl (subHash (subLinks t))))) = true := by
    rw [collapseWs]
    exact collapseGo_noDbl _ false
  refine ⟨?_, ?_, ?_, ?_, ?_, pyStrip_headNW _, pyStrip_lastNW _⟩
  · intro hm
    exact hH5 ((pyStrip_within _).sublist.subset hm)
  · intro hm
    exact hS5 ((pyStrip_within _).sublist.subset hm)
  · exact noBsn_infixClosed _ _ hB5 (pyStrip_within _)
  · exact wsOnlySp_subset _ _ (fun c hc => (pyStrip_within _).sublist.subset hc) hW5
  · exact noDblSp_infixClosed _ _ hD5 (pyStrip_within _)

theorem cleanPipe_id (s : List Char) (hs : CleanInv s)
    (hnb : ∀ c ∈ s, c ≠ '[') : cleanPipe s = s := by
  obtain ⟨h1, h2, h3, h4, h5, h6, h7⟩ := hs
  rw [cleanPipe, subLinks, subLinksF_id _ s hnb, subHash,
    subHashGo_id s (fun c hc he => h1 (he ▸ hc)),
    starRepl_id s (fun c hc he => h2 (he ▸ hc)),
    bsnRepl_id s h3, collapseWs,
    collapseGo_id s false h4 h5 (fun hf => absurd hf Bool.false_ne_true),
    pyStrip_id s h6 h7]

theorem cleanInv_prefix_lastNW (l s : List Char) (hl : CleanInv l)
    (hp : s <+: l) (hlast : lastNW s = true) : CleanInv s := by
  obtain ⟨h1, h2, h3, h4, h5, h6, _⟩ := hl
  exact ⟨fun hm => h1 (hp.sublist.subset hm),
    fun hm => h2 (hp.sublist.subset hm),
    noBsn_prefixClosed l h3 s hp,
    wsOnlySp_subset l s (fun c hc => hp.sublist.subset hc) h4,
    noDblSp_prefixClosed l h5 s hp,
    headNW_prefix l s hp h6, hlast⟩

theorem cleanInv_pyStrip_of_prefix (l x : List Char) (hl : CleanInv l)
    (hp : x <+: l) : CleanInv (pyStrip x) := by
  obtain ⟨h1, h2, h3, h4, h5, _, _⟩ := hl
  have hinf : pyStrip x <:+: l := (pyStrip_within x).trans hp.isInfix
  exact ⟨fun hm => h1 (hinf.sublist.subset hm),
    fun hm => h2 (hinf.sublist.subset hm),
    noBsn_infixClosed l _ h3 hinf,
    wsOnlySp_subset l _ (fun c hc => hinf.sublist.subset hc) h4,
    noDblSp_infixClosed l _ h5 hinf,
    pyStrip_headNW x, pyStrip_lastNW x⟩

theorem cleanInv_append_one (p : List Char) (hp : CleanInv p) (c : Char)
    (hws : isWsC c = false) (hn : ¬ c = 'n') (hh : ¬ c = '#') (hst : ¬ c = '*') :
    CleanInv (p ++ [c]) := by
  obtain ⟨h1, h2, h3, h4, h5, h6, _⟩ := hp
  refine ⟨?_, ?_, noBsn_append_one p c h3 hn, wsOnlySp_append_one p c h4 hws,
    noDblSp_append_one p c h5 hws, headNW_append_one p c h6 hws,
    lastNW_append_one p c hws⟩
  · intro hm
    rcases List.mem_append.mp hm with h | h
    · exact h1 h
    · rw [List.mem_singleton] at h
      exact hh h.symm
  · intro hm
    rcases List.mem_append.mp hm with h | h
    · exact h2 h
    · rw [List.mem_singleton] at h
      exact hst h.symm

theorem rfindIdx_take (c : Char) : ∀ (l : List Char) (i : Nat),
    rfindIdx l c = some i → l.take (i + 1) = l.take i ++ [c] := by
  intro l
  induction l with
  | nil =>
    intro i h
    rw [rfindIdx] at h
    exact absurd h (by simp)
  | cons d rest ih =>
    intro i h
    rw [rfindIdx] at h
    cases hr : rfindIdx rest c with
    | some j =>
      rw [hr] at h
      injection h with h2
      subst h2
      rw [List.take_succ_cons, List.take_succ_cons, ih j hr]
      rfl
    | none =>
      rw [hr] at h
      by_cases hd : d = c
      · rw [if_pos hd] at h
        injection h with h2
        subst h2
        rw [List.take_succ_cons, List.take_zero, List.take_zero, hd]
        rfl
      · rw [if_neg hd] at h
        exact absurd h (by simp)

theorem clean_fix (s : List Char) (h1 : s.isEmpty = false)
    (h2 : cleanPipe s = s) (h3 : ¬ s.length > 400) :
    clean_exa_text (some s) = some s := by
  dsimp only [clean_exa_text]
  rw [← cleanPipe_eq, h2, h1,
    if_neg Bool.false_ne_true, if_neg Bool.false_ne_true, if_neg h3]

theorem clean_fix_ell (p : List Char)
    (hp400 : p.length = 400)
    (hpipe : cleanPipe (p ++ ['…']) = p ++ ['…'])
    (hstrip : pyStrip p = p)
    (hdot : ∀ lp, rfindIdx p '.' = some lp → ¬ lp > 120) :
    clean_exa_text (some (p ++ ['…'])) = some (p ++ ['…']) := by
  dsimp only [clean_exa_text]
  rw [← cleanPipe_eq, hpipe]
  have hne : (p ++ ['…']).isEmpty = false := by simp
  have hlen : (p ++ ['…']).length = 401 := by
    rw [List.length_append, hp400]
    rfl
  have htake : (p ++ ['…']).take 400 = p := by
    rw [← hp400]
    exact List.take_left p _
  rw [hne, if_neg Bool.false_ne_true, if_neg Bool.false_ne_true, hlen,
    if_pos (by norm_num), htake]
  cases hr : rfindIdx p '.' with
  | none =>
    show some (pyStrip p ++ ['…']) = some (p ++ ['…'])
    rw [hstrip]
  | some lp =>
    show (if lp > 120 then some (List.take (lp + 1) p)
      else some (pyStrip p ++ ['…'])) = some (p ++ ['…'])
    rw [if_neg (hdot lp hr), hstrip]

theorem clean_ell_case (l : List Char) (hinv : CleanInv l)
    (hdot : ∀ lp, rfindIdx (l.take 400) '.' = some lp → ¬ lp > 120)
    (hnb : ∀ c ∈ pyStrip (l.take 400) ++ ['…'], c ≠ '[') :
    clean_exa_text (some (pyStrip (l.take 400) ++ ['…'])) =
      some (pyStrip (l.take 400) ++ ['…']) := by
  have hpinv : CleanInv (pyStrip (l.take 400)) :=
    cleanInv_pyStrip_of_prefix l _ hinv (List.take_prefix _ _)
  have hsinv : CleanInv (pyStrip (l.take 400) ++ ['…']) :=
    cleanInv_append_one _ hpinv '…' (by decide) (by decide) (by decide) (by decide)
  have hpipe := cleanPipe_id _ hsinv hnb
  have hTle : (l.take 400).length ≤ 400 := by
    rw [List.length_take]
    omega
  have hsub : (pyStrip (l.take 400)).length ≤ (l.take 400).length :=
    (pyStrip_within (l.take 400)).sublist.length_le
  have hple : (pyStrip (l.take 400)).length ≤ 400 := by omega
  by_cases hp400 : (pyStrip (l.take 400)).length = 400
  · have hpT : pyStrip (l.take 400) = l.take 400 :=
      (pyStrip_within (l.take 400)).sublist.eq_of_length (by omega)
    refine clean_fix_ell _ hp400 hpipe (pyStrip_idem _) ?_
    intro lp hlp
    apply hdot lp
    rw [← hpT]
    exact hlp
  · have hemp : (pyStrip (l.take 400) ++ ['…']).isEmpty = false := by simp
    have hle : ¬ (pyStrip (l.take 400) ++ ['…']).length > 400 := by
      intro hgt
      rw [List.length_append, List.length_singleton] at hgt
      omega
    exact clean_fix _ hemp hpipe hle

/-- C9 counterexample: `clean_exa_text` is not idempotent. The input
`"[a]# (b)"` cleans to `"[a](b)"` (the markdown-link pattern does not match
because `](` does not directly follow the bracketed text, and the heading
substitution then removes `# ` — creating a markdown link in the output),
and cleaning that output again collapses it to `"a"`. -/
theorem C9_counterexample :
    clean_exa_text (some ("[a]# (b)".toList)) = some ("[a](b)".toList) ∧
    clean_exa_text (some ("[a](b)".toList)) = some ("a".toList) ∧
    "[a](b)".toList ≠ "a".toList :=
  ⟨rfl, rfl, by decide⟩

/-- C9 (amended): the snippet cleaner is idempotent on every output that
contains no `'['` character: if `clean_exa_text` returns `some s` and no
character of `s` is `'['`, then cleaning `s` again returns `some s`
unchanged. (The only way re-cleaning can alter an output is the
markdown-link substitution re-firing on a bracket in the output; every
other stage is the identity on cleaned text, and the length cut
reproduces itself.) -/
theorem C9_clean_idempotent (t s : List Char)
    (h : clean_exa_text (some t) = some s)
    (hnb : ∀ c ∈ s, c ≠ '[') :
    clean_exa_text (some s) = some s := by
  dsimp only [clean_exa_text] at h
  rw [← cleanPipe_eq] at h
  by_cases ht : t.isEmpty = true
  · rw [if_pos ht] at h
    exact absurd h (by simp)
  · rw [if_neg ht] at h
    by_cases hce : (cleanPipe t).isEmpty = true
    · rw [if_pos hce] at h
      exact absurd h (by simp)
    · rw [if_neg hce] at h
      have hinv := cleanPipe_inv t
      by_cases hlen : (cleanPipe t).length > 400
      · rw [if_pos hlen] at h
        cases hr : rfindIdx ((cleanPipe t).take 400) '.' with
        | some lp =>
          rw [hr] at h
          by_cases h120 : lp > 120
          · have h2 : (if lp > 120 then
                some (((cleanPipe t).take 400).take (lp + 1))
              else some (pyStrip ((cleanPipe t).take 400) ++ ['…'])) = some s := h
            rw [if_pos h120] at h2
            injection h2 with h3
            subst h3
            have hsplit := rfindIdx_take '.' ((cleanPipe t).take 400) lp hr
            have hpre : ((cleanPipe t).take 400).take (lp + 1) <+: cleanPipe t :=
              (List.take_prefix _ _).trans (List.take_prefix _ _)
            have hlast : lastNW (((cleanPipe t).take 400).take (lp + 1)) = true := by
              rw [hsplit]
              exact lastNW_append_one _ '.' (by decide)
            have hinvS := cleanInv_prefix_lastNW _ _ hinv hpre hlast
            have hpipe := cleanPipe_id _ hinvS hnb
            have hemp : (((cleanPipe t).take 400).take (lp + 1)).isEmpty = false := by
              rw [hsplit]
              simp
            have hle : ¬ (((cleanPipe t).take 400).take (lp + 1)).length > 400 := by
              rw [List.length_take, List.length_take]
              omega
            exact clean_fix _ hemp hpipe hle
          · have h2 : (if lp > 120 then
                some (((cleanPipe t).take 400).take (lp + 1))
              else some (pyStrip ((cleanPipe t).take 400) ++ ['…'])) = some s := h
            rw [if_neg h120] at h2
            injection h2 with h3
            subst h3
            refine clean_ell_case (cleanPipe t) hinv ?_ hnb
            intro lp2 hlp2
            rw [hr] at hlp2
            injection hlp2 with h4
            rw [← h4]
            exact h120
        | none =>
          rw [hr] at h
          have h2 : some (pyStrip ((cleanPipe t).take 400) ++ ['…']) = some s := h
          injection h2 with h3
          subst h3
          refine clean_ell_case (cleanPipe t) hinv ?_ hnb
          intro lp2 hlp2
          rw [hr] at hlp2
          exact absurd hlp2 (by simp)
      · rw [if_neg hlen] at h
        injection h with h2
        subst h2
        exact clean_fix _ (Bool.eq_false_iff.mpr hce) (cleanPipe_id _ hinv hnb) hlen

/-- Witness for C9 (amended) at the concrete input `"hello world"`, whose
cleaned form contains no bracket: cleaning the output again returns it
unchanged. -/
theorem C9_clean_idempotent_witness :
    clean_exa_text (some ("hello world".toList)) = some ("hello world".toList) :=
  C9_clean_idempotent ("hello world".toList) ("hello world".toList) rfl (by decide)

end Minerva
